import Mathlib

/-!
# nginx-log-viewer: the line classification and field extraction loop of `main.go`

`main.go` reads lines from standard input, pairs an optional `[error]` line with the
access line that follows it, matches the access line against a regular expression
compiled from the nginx log format, and fills a `logline` record from the named
capture groups.

The development has four layers.

* `Replace`: `strings.NewReplacer(...).Replace`, the generic (multi byte key) replacer
  of the Go standard library, which turns the log format into the access pattern.
* `Regex`, `regexpParse`, `Regex.run`, `FindStringSubmatch`: the fragment of Go's
  `regexp` package the two patterns of the program use: parsing of the pattern text,
  and leftmost-first (backtracking priority) matching with capture groups.
* `Atoi`: `strconv.Atoi` on a 64 bit target.
* `logline`, `populate`, `mainLoop`: the body of `main`, one read result at a time.

Text is `List Char` throughout (a Go string restricted to valid UTF-8).
`time.Parse` and `useragent.New` are libraries outside the repository; the loop is
parametric in them (`Lib`).
-/

set_option maxRecDepth 100000

namespace NginxLogViewer

/-! ## strings.Replacer -/

/-- The pair the generic replacer picks at the head of `s`: among the old strings that
are a prefix of `s`, the one given first in the argument list (the trie lookup keeps
the key with the highest priority, and priority falls with the argument position).
Every old string of this program is non-empty; empty old strings are left out. -/
def replacerLookup (pairs : List (List Char × List Char)) (s : List Char) :
    Option (List Char × List Char) :=
  pairs.find? (fun p => !p.1.isEmpty && p.1.isPrefixOf s)

/-- The loop of `genericReplacer.Replace`: at each position either a key matches, its
replacement is written and the key is skipped, or one character is copied.
`skip` counts the characters of a matched key still to be passed over. -/
def replaceFrom (pairs : List (List Char × List Char)) : Nat → List Char → List Char
  | _, [] => []
  | skip + 1, _ :: xs => replaceFrom pairs skip xs
  | 0, x :: xs =>
    match replacerLookup pairs (x :: xs) with
    | some p => p.2 ++ replaceFrom pairs (p.1.length - 1) xs
    | none => x :: replaceFrom pairs 0 xs

/-- Go `strings.NewReplacer(oldnew...).Replace(s)`. -/
def Replace (pairs : List (List Char × List Char)) (s : List Char) : List Char :=
  replaceFrom pairs 0 s

/-- The `varToRegexReplacer` of main.go (lines 45-48), as (old, new) pairs in argument
order. -/
def varToRegexReplacer : List (List Char × List Char) :=
  [ ("$time_iso8601".toList, "(?P<Time>.*)".toList),
    ("$http_x_username".toList, "(?P<HTTPXUsername>.*)".toList),
    ("$status".toList, "(?P<Status>\\d+)".toList),
    ("$upstream_addr".toList, "(?P<UpstreamAddr>.*)".toList),
    ("$http_user_agent".toList, "(?P<UserAgent>.*)".toList),
    ("$request".toList, "(?P<Method>.*) (?P<URL>.*) HTTP/(?P<HTTPVersion>\\d.\\d)".toList),
    ("[".toList, "\\[".toList),
    ("]".toList, "\\]".toList) ]

/-- The `accessLogFormat` of main.go (line 50). -/
def accessLogFormat : List Char :=
  "[$time_iso8601] $http_x_username $status \"$request\" $upstream_addr \"$http_user_agent\"".toList

/-- The `accessLogRegex` of main.go (line 51): the replaced format followed by `$`. -/
def accessLogRegex : List Char :=
  Replace varToRegexReplacer accessLogFormat ++ "$".toList

/-- The `errorLogRegex` of main.go (line 52). -/
def errorLogRegex : List Char :=
  " \\[.+\\] .* \\*\\d+ (?P<Message>.*), client:.*, server:.*".toList

/-! ## Regular expressions: syntax -/

/-- Abstract syntax of the pattern fragment: literals, `.`, `\d`, `$`, concatenation,
greedy `*` and `+`, and capture groups (numbered from 1 in order of their opening
parenthesis, named or not). -/
inductive Regex where
  | empty : Regex
  | char (c : Char) : Regex
  | any : Regex
  | digit : Regex
  | eot : Regex
  | cat (a b : Regex) : Regex
  | star (r : Regex) : Regex
  | plus (r : Regex) : Regex
  | group (idx : Nat) (name : List Char) (r : Regex) : Regex
  deriving DecidableEq, Repr

/-- Concatenation of a sequence of items, nested to the right. -/
def Regex.seq : List Regex → Regex
  | [] => .empty
  | [r] => r
  | r :: rs => .cat r (Regex.seq rs)

/-- An open group while parsing: its number, its name and the items read so far,
last first. -/
structure Frame where
  idx : Nat
  name : List Char
  items : List Regex
  deriving Repr

/-- What the pattern reader is in the middle of: nothing, an escape after a
backslash, the opening of a group (`(`, `(?`, `(?P`), or a group name after `(?P<`. -/
inductive Mode where
  | normal : Mode
  | escape : Mode
  | paren : Mode
  | parenQ : Mode
  | parenQP : Mode
  | name (acc : List Char) : Mode
  deriving Repr

/-- State of the pattern reader: the enclosing open groups, the innermost one, the
number of groups opened so far, and the mode. -/
structure ParseState where
  stack : List Frame
  cur : Frame
  ngroups : Nat
  mode : Mode
  deriving Repr

/-- Append an item to the innermost open group. -/
def ParseState.push (st : ParseState) (r : Regex) : ParseState :=
  { st with cur := { st.cur with items := r :: st.cur.items }, mode := .normal }

/-- Apply a repetition operator to the item read last; a repetition with nothing
before it is a syntax error. -/
def ParseState.repeatLast (st : ParseState) (f : Regex → Regex) : Option ParseState :=
  match st.cur.items with
  | [] => none
  | r :: rs => some { st with cur := { st.cur with items := f r :: rs } }

/-- Open a group with the given name. -/
def ParseState.openGroup (st : ParseState) (name : List Char) : ParseState :=
  { stack := st.cur :: st.stack,
    cur := { idx := st.ngroups + 1, name := name, items := [] },
    ngroups := st.ngroups + 1,
    mode := .normal }

/-- Close the innermost group; an unmatched `)` is a syntax error. -/
def ParseState.closeGroup (st : ParseState) : Option ParseState :=
  match st.stack with
  | [] => none
  | f :: fs =>
    some { st with
      stack := fs,
      cur := { f with
        items := .group st.cur.idx st.cur.name (Regex.seq st.cur.items.reverse) :: f.items } }

/-- One character read outside escapes and group openings. Syntax of Go's
`regexp/syntax` outside the fragment (classes in brackets, alternation, counted
repetition, `?`, `^`) is not accepted. -/
def normalStep (st : ParseState) (c : Char) : Option ParseState :=
  if c = '\\' then some { st with mode := .escape }
  else if c = '(' then some { st with mode := .paren }
  else if c = ')' then st.closeGroup
  else if c = '*' then st.repeatLast .star
  else if c = '+' then st.repeatLast .plus
  else if c = '.' then some (st.push .any)
  else if c = '$' then some (st.push .eot)
  else if c = '[' || c = ']' || c = '{' || c = '}' || c = '|' || c = '?' || c = '^' then none
  else some (st.push (.char c))

/-- One character of pattern text. After a backslash, `d` is the digit class and an
ASCII character that is not a letter or digit stands for itself; other escapes are
outside the fragment. -/
def parseStep (st : ParseState) (c : Char) : Option ParseState :=
  match st.mode with
  | .normal => normalStep st c
  | .escape =>
    if c = 'd' then some (st.push .digit)
    else if c.toNat < 128 && !c.isAlphanum then some (st.push (.char c))
    else none
  | .paren =>
    if c = '?' then some { st with mode := .parenQ }
    else normalStep (st.openGroup []) c
  | .parenQ => if c = 'P' then some { st with mode := .parenQP } else none
  | .parenQP => if c = '<' then some { st with mode := .name [] } else none
  | .name acc =>
    if c = '>' then (if acc.isEmpty then none else some (st.openGroup acc.reverse))
    else if c.isAlphanum || c = '_' then some { st with mode := .name (c :: acc) }
    else none

/-- The reader run over the pattern text. -/
def parseFrom : List Char → ParseState → Option ParseState
  | [], st => some st
  | c :: rest, st =>
    match parseStep st c with
    | some st1 => parseFrom rest st1
    | none => none

/-- Go `syntax.Parse` on the fragment; `none` is a syntax error (an unfinished
escape or group is one). -/
def regexpParse (pattern : List Char) : Option Regex :=
  match parseFrom pattern
      { stack := [], cur := { idx := 0, name := [], items := [] }, ngroups := 0,
        mode := .normal } with
  | some st =>
    match st.mode, st.stack with
    | .normal, [] => some (Regex.seq st.cur.items.reverse)
    | _, _ => none
  | none => none

/-- Names of the capture groups in order of their number. -/
def Regex.groupNames : Regex → List (List Char)
  | .cat a b => a.groupNames ++ b.groupNames
  | .star r => r.groupNames
  | .plus r => r.groupNames
  | .group _ name r => name :: r.groupNames
  | _ => []

/-- Go `(*Regexp).SubexpNames`: the empty name of the whole match, then the group
names. -/
def SubexpNames (re : Regex) : List (List Char) :=
  [] :: re.groupNames

/-! ## Regular expressions: leftmost-first matching -/

/-- Capture registers, one text per group, the whole match at index 0. A group that
did not take part holds the empty text, as in the result of `FindStringSubmatch`. -/
abbrev Caps := List (List Char)

/-- What remains to be matched after a sub-pattern: it receives the rest of the input
and the registers and returns the registers of the first complete match. -/
abbrev Cont := List Char → Caps → Option Caps

/-- Greedy repetition: first try one more round of the body (which has to consume
input) followed by the repetition again, and only then go on without it. `fuel` bounds
the number of rounds; the length of the input is always enough. -/
def starLoop (body : List Char → Caps → Cont → Option Caps) :
    Nat → List Char → Caps → Cont → Option Caps
  | 0, s, c, k => k s c
  | fuel + 1, s, c, k =>
    match body s c (fun s1 c1 =>
        if s1.length < s.length then starLoop body fuel s1 c1 k else none) with
    | some r => some r
    | none => k s c

/-- Backtracking matcher with Go's leftmost-first preference: try the pattern at the
head of `s`, hand the rest to `k`, and return the first success in priority order.
`.` is any character but a line feed, `\d` an ASCII digit, `$` the end of the text.
A group stores the text its body consumed. -/
def Regex.run : Regex → List Char → Caps → Cont → Option Caps
  | .empty, s, c, k => k s c
  | .char a, s, c, k =>
    match s with
    | x :: xs => if x = a then k xs c else none
    | [] => none
  | .any, s, c, k =>
    match s with
    | x :: xs => if x = '\n' then none else k xs c
    | [] => none
  | .digit, s, c, k =>
    match s with
    | x :: xs => if x.isDigit then k xs c else none
    | [] => none
  | .eot, s, c, k =>
    match s with
    | [] => k [] c
    | _ :: _ => none
  | .cat a b, s, c, k => a.run s c (fun s1 c1 => b.run s1 c1 k)
  | .star r, s, c, k => starLoop r.run s.length s c k
  | .plus r, s, c, k => r.run s c (fun s1 c1 => starLoop r.run s1.length s1 c1 k)
  | .group idx _ r, s, c, k =>
    r.run s c (fun s1 c1 => k s1 (c1.set idx (s.take (s.length - s1.length))))

/-- The continuation that accepts: the match is complete. -/
def accept : Cont := fun _ c => some c

/-- Number of capture groups of a pattern (Go `NumSubexp`). -/
def NumSubexp (re : Regex) : Nat := re.groupNames.length

/-- Unanchored search: the first start position, from the left, at which the pattern
(as group 0) matches. -/
def searchFrom (re : Regex) (init : Caps) : List Char → Option Caps
  | [] => (Regex.group 0 [] re).run [] init accept
  | x :: xs =>
    match (Regex.group 0 [] re).run (x :: xs) init accept with
    | some c => some c
    | none => searchFrom re init xs

/-- Go `(*Regexp).FindStringSubmatch`: the texts of the leftmost match and of its
groups, or the nil slice (here the empty list) when there is no match. -/
def FindStringSubmatch (re : Regex) (s : List Char) : List (List Char) :=
  match searchFrom re (List.replicate (NumSubexp re + 1) []) s with
  | some c => c
  | none => []

/-- Go `regexp.MustCompile` for a pattern of the fragment; `none` stands for its
panic on a pattern that does not parse. -/
def MustCompile (pattern : List Char) : Option Regex := regexpParse pattern

/-- The `accessLogRe` of main (line 75). -/
def accessLogRe : Regex := (MustCompile accessLogRegex).getD .empty

/-- The `errorLogRe` of main (line 76). -/
def errorLogRe : Regex := (MustCompile errorLogRegex).getD .empty

/-! ## strconv.Atoi -/

/-- Size of Go's `int` in bits on the 64 bit targets the program is built for. -/
def intSize : Nat := 64

/-- Length of a Go string in bytes (UTF-8). -/
def byteLen (s : List Char) : Nat := (s.map Char.utf8Size).sum

/-- The two kinds of `strconv.NumError`. -/
inductive NumError where
  | errSyntax : NumError
  | errRange : NumError
  deriving DecidableEq, Repr

/-- The digit loop of `strconv.ParseUint(s, 10, 64)`: a character that is not a digit
is a syntax error with value 0; a value that does not fit 64 bits is a range error
with the largest value, reported as soon as it is seen. -/
def parseUintFrom : Nat → List Char → Nat × Option NumError
  | n, [] => (n, none)
  | n, ch :: rest =>
    if !ch.isDigit then (0, some .errSyntax)
    else if n ≥ (2 ^ 64 - 1) / 10 + 1 then (2 ^ 64 - 1, some .errRange)
    else if n * 10 + (ch.toNat - 48) > 2 ^ 64 - 1 then (2 ^ 64 - 1, some .errRange)
    else parseUintFrom (n * 10 + (ch.toNat - 48)) rest

/-- Go `strconv.ParseUint(s, 10, 64)`. -/
def ParseUint (s : List Char) : Nat × Option NumError :=
  match s with
  | [] => (0, some .errSyntax)
  | _ => parseUintFrom 0 s

/-- Go `strconv.ParseInt(s, 10, 0)`: an optional sign, then `ParseUint`; a magnitude
outside the range of `int` is a range error whose value is the nearest bound. -/
def ParseInt (s : List Char) : Int × Option NumError :=
  match s with
  | [] => (0, some .errSyntax)
  | c0 :: rest =>
    let neg := decide (c0 = '-')
    let body := if c0 = '+' ∨ c0 = '-' then rest else s
    match ParseUint body with
    | (_, some .errSyntax) => (0, some .errSyntax)
    | (un, _) =>
      let cutoff : Nat := 2 ^ (intSize - 1)
      if !neg && un ≥ cutoff then ((cutoff : Int) - 1, some .errRange)
      else if neg && un > cutoff then (-(cutoff : Int), some .errRange)
      else (if neg then -(un : Int) else (un : Int), none)

/-- The fast path of `strconv.Atoi` for short texts: digits accumulated without an
overflow check. -/
def atoiFast : Nat → List Char → Option Nat
  | n, [] => some n
  | n, ch :: rest => if ch.isDigit then atoiFast (n * 10 + (ch.toNat - 48)) rest else none

/-- Go `strconv.Atoi`: the value and the error it returns. Texts shorter than 19
bytes take the fast path, all others go through `ParseInt`. -/
def Atoi (s : List Char) : Int × Option NumError :=
  if 0 < byteLen s ∧ byteLen s < 19 then
    match s with
    | [] => (0, some .errSyntax)
    | c0 :: rest =>
      let body := if c0 = '-' ∨ c0 = '+' then rest else s
      if body.length < 1 then (0, some .errSyntax)
      else
        match atoiFast 0 body with
        | none => (0, some .errSyntax)
        | some n => (if c0 = '-' then -(n : Int) else (n : Int), none)
  else ParseInt s

/-! ## The record and the loop of `main` -/

/-- The two library calls the loop makes on captured text: `time.Parse(time.RFC3339, ·)`
(`none` when it returns an error, in which case the time it returns is the zero time)
and `useragent.New`. -/
structure Lib (T U : Type) where
  timeParse : List Char → Option T
  zeroTime : T
  uaNew : List Char → U

/-- The `logline` struct of main.go (lines 56-66). `UserAgent` is a pointer: `none`
is nil. -/
structure logline (T U : Type) where
  Time : T
  HTTPXUsername : List Char
  Status : Int
  Method : List Char
  URL : List Char
  HTTPVersion : List Char
  UpstreamAddr : List Char
  UserAgent : Option U
  Message : List Char

/-- The zero value `logline{}` (line 96). -/
def logline.zero {T U : Type} (lib : Lib T U) : logline T U :=
  { Time := lib.zeroTime, HTTPXUsername := [], Status := 0, Method := [], URL := [],
    HTTPVersion := [], UpstreamAddr := [], UserAgent := none, Message := [] }

/-- The call `reflect.ValueOf(&l).Elem().FieldByName(name).SetString(v)` (line 124):
it sets the field called `name` when the struct has one and it is of kind string, and
panics (`none`) otherwise. -/
def logline.SetString {T U : Type} (l : logline T U) (name v : List Char) :
    Option (logline T U) :=
  if name = "HTTPXUsername".toList then some { l with HTTPXUsername := v }
  else if name = "Method".toList then some { l with Method := v }
  else if name = "URL".toList then some { l with URL := v }
  else if name = "HTTPVersion".toList then some { l with HTTPVersion := v }
  else if name = "UpstreamAddr".toList then some { l with UpstreamAddr := v }
  else if name = "Message".toList then some { l with Message := v }
  else none

/-- The `switch name` of lines 114-125 on the captured text `v`. -/
def setField {T U : Type} (lib : Lib T U) (l : logline T U) (name v : List Char) :
    Option (logline T U) :=
  if name = "Status".toList then some { l with Status := (Atoi v).1 }
  else if name = "Time".toList then
    some { l with Time := (lib.timeParse v).getD lib.zeroTime }
  else if name = "UserAgent".toList then some { l with UserAgent := some (lib.uaNew v) }
  else l.SetString name v

/-- The loop `for i, name := range accessLogRe.SubexpNames()` (lines 112-127) from
index `i` on, over the result `m` of the match. The read `match[i]` panics (`none`)
when `i` is out of range. -/
def populateFrom {T U : Type} (lib : Lib T U) (m : List (List Char)) :
    Nat → List (List Char) → logline T U → Option (logline T U)
  | _, [], l => some l
  | i, name :: names, l =>
    if 0 < i ∧ i ≤ m.length then
      match m.get? i with
      | none => none
      | some v =>
        match setField lib l name v with
        | none => none
        | some l1 => populateFrom lib m (i + 1) names l1
    else populateFrom lib m (i + 1) names l

/-- Lines 110-127: match the current line against the access pattern and fill `l`
from the captures; `none` is a run-time panic. -/
def populate {T U : Type} (lib : Lib T U) (l : logline T U) (inputStr : List Char) :
    Option (logline T U) :=
  populateFrom lib (FindStringSubmatch accessLogRe inputStr) 0 (SubexpNames accessLogRe) l

/-- Go `strings.Contains(s, sub)`. -/
def Contains (s sub : List Char) : Bool :=
  sub.isPrefixOf s ||
    match s with
    | [] => false
    | _ :: xs => Contains xs sub

/-- The marker of an error line (line 97). -/
def errorMarker : List Char := " [error] ".toList

/-- Lines 98-102: the message of an error line, empty unless the error pattern
matches (the match then has two entries). -/
def errorMessage (inputStr : List Char) : List Char :=
  let m := FindStringSubmatch errorLogRe inputStr
  if m.length = 2 then m.getD 1 [] else []

/-- One call of `reader.ReadLine()` that is not at the end of the stream: a line
(without its line end), or a failure with an error other than `io.EOF`, for which
`ReadLine` returns a nil line. Reading past the end of the list of results is
`io.EOF`. -/
inductive ReadResult where
  | line (s : List Char) : ReadResult
  | readErr : ReadResult
  deriving DecidableEq, Repr

/-- The text `string(input)` after a read that did not return `io.EOF`. -/
def ReadResult.text : ReadResult → List Char
  | .line s => s
  | .readErr => []

/-- How the loop ended. -/
inductive Outcome where
  | halted : Outcome
  | panicked : Outcome
  deriving DecidableEq, Repr

/-- The observable run of the loop: the records handed to the printing code of lines
129-150, in order, and how the loop ended. -/
structure Trace (T U : Type) where
  events : List (logline T U)
  outcome : Outcome

/-- One iteration reaches the printing code with the record `l` (or panics before it),
followed by the rest of the run. -/
def Trace.emit {T U : Type} (e : Option (logline T U)) (rest : Trace T U) : Trace T U :=
  match e with
  | none => { events := [], outcome := .panicked }
  | some l => { events := l :: rest.events, outcome := rest.outcome }

/-- The `for` loop of main (lines 89-151) over the results of successive reads. The
loop breaks only on `io.EOF` (lines 91 and 104), that is at the end of the list. -/
def mainLoop {T U : Type} (lib : Lib T U) : List ReadResult → Trace T U
  | [] => { events := [], outcome := .halted }
  | r :: rest =>
    if Contains r.text errorMarker then
      match rest with
      | [] => { events := [], outcome := .halted }
      | r2 :: rest2 =>
        Trace.emit
          (populate lib { logline.zero lib with Message := errorMessage r.text } r2.text)
          (mainLoop lib rest2)
    else Trace.emit (populate lib (logline.zero lib) r.text) (mainLoop lib rest)


/-! ## Declarative semantics of matching -/

/-- Zero or more rounds of a body relation, each round consuming input. -/
inductive StarMatches (R : List Char → List Char → Caps → Caps → Prop) :
    List Char → List Char → Caps → Caps → Prop where
  | nil (rest : List Char) (c : Caps) : StarMatches R [] rest c c
  | cons (w1 w2 rest : List Char) (c c1 c2 : Caps) :
      w1 ≠ [] → R w1 (w2 ++ rest) c c1 → StarMatches R w2 rest c1 c2 →
      StarMatches R (w1 ++ w2) rest c c2

/-- The pattern matches the text `w` when `rest` follows it, taking the capture
registers from `c` to `c1`. Every way of matching is included, whatever its
priority. -/
def Regex.Matches : Regex → List Char → List Char → Caps → Caps → Prop
  | .empty, w, _, c, c1 => w = [] ∧ c1 = c
  | .char a, w, _, c, c1 => w = [a] ∧ c1 = c
  | .any, w, _, c, c1 => (∃ x, x ≠ '\n' ∧ w = [x]) ∧ c1 = c
  | .digit, w, _, c, c1 => (∃ x, x.isDigit = true ∧ w = [x]) ∧ c1 = c
  | .eot, w, rest, c, c1 => w = [] ∧ rest = [] ∧ c1 = c
  | .cat a b, w, rest, c, c2 =>
    ∃ w1 w2 c1, w = w1 ++ w2 ∧ a.Matches w1 (w2 ++ rest) c c1 ∧ b.Matches w2 rest c1 c2
  | .star r, w, rest, c, c1 => StarMatches r.Matches w rest c c1
  | .plus r, w, rest, c, c2 =>
    ∃ w1 w2 c1, w = w1 ++ w2 ∧ r.Matches w1 (w2 ++ rest) c c1 ∧
      StarMatches r.Matches w2 rest c1 c2
  | .group idx _ r, w, rest, c, c2 => ∃ c1, r.Matches w rest c c1 ∧ c2 = c1.set idx w

/-- A matcher body is sound for a relation: each of its results comes from a split
of the input that the relation accepts. -/
def BodySound (body : List Char → Caps → Cont → Option Caps)
    (R : List Char → List Char → Caps → Caps → Prop) : Prop :=
  ∀ s c k res, body s c k = some res →
    ∃ w rest c1, s = w ++ rest ∧ R w rest c c1 ∧ k rest c1 = some res

/-- A matcher body is complete for a relation: on an accepted split it succeeds as
soon as the continuation succeeds on the rest whatever the registers. -/
def BodyComplete (body : List Char → Caps → Cont → Option Caps)
    (R : List Char → List Char → Caps → Caps → Prop) : Prop :=
  ∀ w rest c0 c1 k, R w rest c0 c1 → (∀ c, (k rest c).isSome = true) →
    ∀ c, (body (w ++ rest) c k).isSome = true

/-- The access line `[<t>] <c> <s> "<m> <u> HTTP/<v>" <a> "<g>"` built from field
values. -/
def accessLine (t c s m u v a g : List Char) : List Char :=
  '[' :: (t ++ ']' :: ' ' :: (c ++ ' ' :: (s ++ ' ' :: '"' :: (m ++ ' ' :: (u ++
    ' ' :: 'H' :: 'T' :: 'T' :: 'P' :: '/' :: (v ++ '"' :: ' ' :: (a ++
    ' ' :: '"' :: (g ++ ['"']))))))))

/-- The number a text of decimal digits denotes. -/
def decimalFrom (n : Nat) (s : List Char) : Nat :=
  s.foldl (fun acc ch => acc * 10 + (ch.toNat - 48)) n

/-- The number a text of decimal digits denotes, read from the left. -/
def decimalValue (s : List Char) : Nat := decimalFrom 0 s

/-- The read results are used up by whole iterations of the loop: no error line is
left at the end without the read that follows it. -/
def wholeIterations : List ReadResult → Bool
  | [] => true
  | r :: rest =>
    if Contains r.text errorMarker then
      match rest with
      | [] => false
      | _ :: rest2 => wholeIterations rest2
    else wholeIterations rest

/-- A library instance that keeps the text it is handed: a time is stood for by its
timestamp text (the zero time by the empty text), a user agent by its raw string. -/
def rawLib : Lib (List Char) (List Char) :=
  { timeParse := fun t => some t, zeroTime := [], uaNew := fun g => g }

/-- The access line of Scenario A. -/
def scenarioA : List Char :=
  "[2023-01-02T03:04:05Z] alice 200 \"GET /x HTTP/1.1\" 10.0.0.1 \"Mozilla/5.0\"".toList

/-- An error line with the body of Scenario B. -/
def scenarioB : List Char :=
  "2023/01/02 03:04:05 [error] 7#7: *42 connect() failed, client: 1.2.3.4, server: _".toList

/-- The line of Scenario C. -/
def scenarioC : List Char := "garbage not a log line".toList

/-- The six placeholder tokens of the log format. -/
def placeholders : List (List Char) :=
  [ "$time_iso8601".toList, "$http_x_username".toList, "$status".toList,
    "$upstream_addr".toList, "$http_user_agent".toList, "$request".toList ]

/-- An access line whose status text is 2^63, one more than the largest `int`. -/
def bigStatusLine : List Char :=
  "[2023-01-02T03:04:05Z] alice 9223372036854775808 \"GET /x HTTP/1.1\" 10.0.0.1 \"Mozilla/5.0\"".toList

/-- The access line of Scenario D: status 999. -/
def scenarioD : List Char :=
  "[2023-01-02T03:04:05Z] alice 999 \"GET /x HTTP/1.1\" 10.0.0.1 \"Mozilla/5.0\"".toList

/-- The text `, client:` that ends the message of an error line. -/
def clientMark : List Char := [',', ' ', 'c', 'l', 'i', 'e', 'n', 't', ':']

/-- The text `, server:` that follows the client part of an error line. -/
def serverMark : List Char := [',', ' ', 's', 'e', 'r', 'v', 'e', 'r', ':']

/-- The part of the error pattern after the Message group: `, client:.*, server:.*`. -/
def errorTail : Regex :=
  Regex.seq
    [ .char ',', .char ' ', .char 'c', .char 'l', .char 'i', .char 'e', .char 'n',
      .char 't', .char ':', .star .any, .char ',', .char ' ', .char 's', .char 'e',
      .char 'r', .char 'v', .char 'e', .char 'r', .char ':', .star .any ]

/-- An error line in which `, client:` occurs twice. -/
def twoClients : List Char :=
  "2023/01/02 03:04:05 [error] 7#7: *1 a, client: b, client: c, server: d".toList

/-! ## The matcher against its declarative semantics -/

theorem starLoop_sound (body : List Char → Caps → Cont → Option Caps)
    (R : List Char → List Char → Caps → Caps → Prop) (hb : BodySound body R) :
    ∀ fuel s c k res, starLoop body fuel s c k = some res →
      ∃ w rest c1, s = w ++ rest ∧ StarMatches R w rest c c1 ∧ k rest c1 = some res := by
  intro fuel
  induction fuel with
  | zero =>
    intro s c k res h
    exact ⟨[], s, c, rfl, StarMatches.nil s c, h⟩
  | succ fuel ih =>
    intro s c k res h
    rw [starLoop] at h
    split at h
    · rename_i r hr
      cases h
      obtain ⟨w1, rest1, c1, hs, hR, hk⟩ := hb _ _ _ _ hr
      by_cases hlt : rest1.length < s.length
      · simp only [hlt, if_true] at hk
        obtain ⟨w2, rest, c2, hs2, hstar, hk2⟩ := ih _ _ _ _ hk
        refine ⟨w1 ++ w2, rest, c2, ?_, ?_, hk2⟩
        · rw [hs, hs2, List.append_assoc]
        · refine StarMatches.cons w1 w2 rest c c1 c2 ?_ (hs2 ▸ hR) hstar
          intro h0
          subst h0
          simp at hs
          subst hs
          exact absurd hlt (lt_irrefl _)
      · simp [hlt] at hk
    · exact ⟨[], s, c, rfl, StarMatches.nil s c, h⟩

theorem Regex.run_sound (r : Regex) : BodySound r.run r.Matches := by
  induction r with
  | empty =>
    intro s c k res h
    exact ⟨[], s, c, rfl, ⟨rfl, rfl⟩, h⟩
  | char a =>
    intro s c k res h
    cases s with
    | nil => simp [Regex.run] at h
    | cons x xs =>
      by_cases hx : x = a
      · subst hx
        simp only [Regex.run, if_true] at h
        exact ⟨[x], xs, c, rfl, ⟨rfl, rfl⟩, h⟩
      · simp [Regex.run, hx] at h
  | any =>
    intro s c k res h
    cases s with
    | nil => simp [Regex.run] at h
    | cons x xs =>
      by_cases hx : x = '\n'
      · simp [Regex.run, hx] at h
      · simp only [Regex.run, hx, if_false] at h
        exact ⟨[x], xs, c, rfl, ⟨⟨x, hx, rfl⟩, rfl⟩, h⟩
  | digit =>
    intro s c k res h
    cases s with
    | nil => simp [Regex.run] at h
    | cons x xs =>
      by_cases hx : x.isDigit = true
      · simp only [Regex.run, hx, if_true] at h
        exact ⟨[x], xs, c, rfl, ⟨⟨x, hx, rfl⟩, rfl⟩, h⟩
      · simp [Regex.run, hx] at h
  | eot =>
    intro s c k res h
    cases s with
    | nil => exact ⟨[], [], c, rfl, ⟨rfl, rfl, rfl⟩, h⟩
    | cons x xs => simp [Regex.run] at h
  | cat a b iha ihb =>
    intro s c k res h
    rw [Regex.run] at h
    obtain ⟨w1, rest1, c1, hs, hA, hk⟩ := iha _ _ _ _ h
    obtain ⟨w2, rest, c2, hs2, hB, hk2⟩ := ihb _ _ _ _ hk
    refine ⟨w1 ++ w2, rest, c2, ?_, ⟨w1, w2, c1, rfl, hs2 ▸ hA, hB⟩, hk2⟩
    rw [hs, hs2, List.append_assoc]
  | star r ih =>
    intro s c k res h
    rw [Regex.run] at h
    exact starLoop_sound _ _ ih _ _ _ _ _ h
  | plus r ih =>
    intro s c k res h
    rw [Regex.run] at h
    obtain ⟨w1, rest1, c1, hs, hA, hk⟩ := ih _ _ _ _ h
    obtain ⟨w2, rest, c2, hs2, hB, hk2⟩ := starLoop_sound _ _ ih _ _ _ _ _ hk
    refine ⟨w1 ++ w2, rest, c2, ?_, ⟨w1, w2, c1, rfl, hs2 ▸ hA, hB⟩, hk2⟩
    rw [hs, hs2, List.append_assoc]
  | group idx name r ih =>
    intro s c k res h
    rw [Regex.run] at h
    obtain ⟨w, rest, c1, hs, hA, hk⟩ := ih _ _ _ _ h
    refine ⟨w, rest, c1.set idx w, hs, ⟨c1, hA, rfl⟩, ?_⟩
    have : List.take (s.length - rest.length) s = w := by
      subst hs
      simp
    rw [this] at hk
    exact hk

theorem starLoop_complete (body : List Char → Caps → Cont → Option Caps)
    (R : List Char → List Char → Caps → Caps → Prop) (hb : BodyComplete body R)
    (w rest : List Char) (c0 c1 : Caps) (k : Cont) (hstar : StarMatches R w rest c0 c1)
    (hk : ∀ c, (k rest c).isSome = true) :
    ∀ fuel c, w.length ≤ fuel → (starLoop body fuel (w ++ rest) c k).isSome = true := by
  induction hstar with
  | nil rest c0 =>
    intro fuel c _
    cases fuel with
    | zero => exact hk c
    | succ fuel =>
      rw [starLoop]
      split
      · rfl
      · exact hk c
  | cons w1 w2 rest c0 c1 c2 hne hR _ ih =>
    intro fuel c hfuel
    have hpos : 0 < w1.length := List.length_pos.mpr hne
    cases fuel with
    | zero => simp at hfuel; exact absurd hfuel.1 hne
    | succ fuel =>
      rw [starLoop]
      have hsome := hb w1 (w2 ++ rest) c0 c1
        (fun s1 c1 => if s1.length < (w1 ++ w2 ++ rest).length
          then starLoop body fuel s1 c1 k else none) hR
        (by
          intro c'
          have hlt : (w2 ++ rest).length < (w1 ++ w2 ++ rest).length := by
            simp; omega
          simp only [hlt, if_true]
          apply ih hk
          simp at hfuel
          omega) c
      rw [List.append_assoc]
      rw [List.append_assoc] at hsome
      cases hbody : body (w1 ++ (w2 ++ rest)) c
        (fun s1 c1 => if s1.length < (w1 ++ (w2 ++ rest)).length
          then starLoop body fuel s1 c1 k else none) with
      | none => rw [hbody] at hsome; simp at hsome
      | some r => rfl

theorem Regex.run_complete (r : Regex) : BodyComplete r.run r.Matches := by
  induction r with
  | empty =>
    intro w rest c0 c1 k h hk c
    obtain ⟨rfl, _⟩ := h
    exact hk c
  | char a =>
    intro w rest c0 c1 k h hk c
    obtain ⟨rfl, _⟩ := h
    simp [Regex.run, hk]
  | any =>
    intro w rest c0 c1 k h hk c
    obtain ⟨⟨x, hx, rfl⟩, _⟩ := h
    simp [Regex.run, hx, hk]
  | digit =>
    intro w rest c0 c1 k h hk c
    obtain ⟨⟨x, hx, rfl⟩, _⟩ := h
    simp [Regex.run, hx, hk]
  | eot =>
    intro w rest c0 c1 k h hk c
    obtain ⟨rfl, rfl, _⟩ := h
    simpa [Regex.run] using hk c
  | cat a b iha ihb =>
    intro w rest c0 c2 k h hk c
    obtain ⟨w1, w2, c1, rfl, hA, hB⟩ := h
    rw [Regex.run, List.append_assoc]
    exact iha _ _ _ _ _ hA (fun c' => ihb _ _ _ _ _ hB hk c') c
  | star r ih =>
    intro w rest c0 c1 k h hk c
    rw [Regex.run]
    exact starLoop_complete _ _ ih _ _ _ _ _ h hk _ _ (by simp)
  | plus r ih =>
    intro w rest c0 c2 k h hk c
    obtain ⟨w1, w2, c1, rfl, hA, hB⟩ := h
    rw [Regex.run, List.append_assoc]
    exact ih _ _ _ _ _ hA
      (fun c' => starLoop_complete _ _ ih _ _ _ _ _ hB hk _ _ (by simp)) c
  | group idx name r ih =>
    intro w rest c0 c2 k h hk c
    obtain ⟨c1, hA, _⟩ := h
    rw [Regex.run]
    exact ih _ _ _ _ (fun s1 c1 =>
      k s1 (List.set c1 idx (List.take ((w ++ rest).length - s1.length) (w ++ rest))))
      hA (fun c' => hk _) c


theorem accessLogRe_eq : accessLogRe = Regex.seq
    [ .char '[', .group 1 "Time".toList (.star .any), .char ']', .char ' ',
      .group 2 "HTTPXUsername".toList (.star .any), .char ' ',
      .group 3 "Status".toList (.plus .digit), .char ' ', .char '"',
      .group 4 "Method".toList (.star .any), .char ' ',
      .group 5 "URL".toList (.star .any), .char ' ', .char 'H', .char 'T', .char 'T',
      .char 'P', .char '/',
      .group 6 "HTTPVersion".toList (.cat .digit (.cat .any .digit)), .char '"', .char ' ',
      .group 7 "UpstreamAddr".toList (.star .any), .char ' ', .char '"',
      .group 8 "UserAgent".toList (.star .any), .char '"', .eot ] := by
  decide!

theorem starMatches_any (w rest : List Char) (c c1 : Caps) :
    StarMatches Regex.any.Matches w rest c c1 ↔ c1 = c ∧ '\n' ∉ w := by
  constructor
  · intro h
    induction h with
    | nil rest c => simp
    | cons w1 w2 rest c c1 c2 _ hR _ ih =>
      obtain ⟨⟨x, hx, rfl⟩, rfl⟩ := hR
      obtain ⟨rfl, hw2⟩ := ih
      refine ⟨rfl, ?_⟩
      simp only [List.singleton_append, List.mem_cons, not_or]
      exact ⟨fun h => hx h.symm, hw2⟩
  · rintro ⟨rfl, hw⟩
    induction w with
    | nil => exact StarMatches.nil rest c1
    | cons x xs ih =>
      simp only [List.mem_cons, not_or] at hw
      exact StarMatches.cons [x] xs rest c1 c1 c1 (by simp)
        ⟨⟨x, fun h => hw.1 h.symm, rfl⟩, rfl⟩ (ih hw.2)

theorem starMatches_digit (w rest : List Char) (c c1 : Caps) :
    StarMatches Regex.digit.Matches w rest c c1 ↔ c1 = c ∧ ∀ x ∈ w, x.isDigit = true := by
  constructor
  · intro h
    induction h with
    | nil rest c => simp
    | cons w1 w2 rest c c1 c2 _ hR _ ih =>
      obtain ⟨⟨x, hx, rfl⟩, rfl⟩ := hR
      obtain ⟨rfl, hw2⟩ := ih
      refine ⟨rfl, ?_⟩
      intro y hy
      simp only [List.singleton_append, List.mem_cons] at hy
      rcases hy with rfl | hy
      · exact hx
      · exact hw2 y hy
  · rintro ⟨rfl, hw⟩
    induction w with
    | nil => exact StarMatches.nil rest c1
    | cons x xs ih =>
      exact StarMatches.cons [x] xs rest c1 c1 c1 (by simp)
        ⟨⟨x, hw x (by simp), rfl⟩, rfl⟩ (ih (fun y hy => hw y (by simp [hy])))

theorem M_cat (a b : Regex) (w rest : List Char) (c c2 : Caps) :
    (Regex.cat a b).Matches w rest c c2 ↔
      ∃ w1 w2 c1, w = w1 ++ w2 ∧ a.Matches w1 (w2 ++ rest) c c1 ∧ b.Matches w2 rest c1 c2 :=
  Iff.rfl

theorem M_char (a : Char) (w rest : List Char) (c c1 : Caps) :
    (Regex.char a).Matches w rest c c1 ↔ w = [a] ∧ c1 = c := Iff.rfl

theorem M_any (w rest : List Char) (c c1 : Caps) :
    Regex.any.Matches w rest c c1 ↔ (∃ x, x ≠ '\n' ∧ w = [x]) ∧ c1 = c := Iff.rfl

theorem M_digit (w rest : List Char) (c c1 : Caps) :
    Regex.digit.Matches w rest c c1 ↔ (∃ x, x.isDigit = true ∧ w = [x]) ∧ c1 = c := Iff.rfl

theorem M_eot (w rest : List Char) (c c1 : Caps) :
    Regex.eot.Matches w rest c c1 ↔ w = [] ∧ rest = [] ∧ c1 = c := Iff.rfl

theorem M_group (idx : Nat) (name : List Char) (r : Regex) (w rest : List Char) (c c2 : Caps) :
    (Regex.group idx name r).Matches w rest c c2 ↔
      ∃ c1, r.Matches w rest c c1 ∧ c2 = c1.set idx w := Iff.rfl

theorem M_starAny (w rest : List Char) (c c1 : Caps) :
    (Regex.star .any).Matches w rest c c1 ↔ c1 = c ∧ '\n' ∉ w :=
  starMatches_any w rest c c1

theorem M_plusAny (w rest : List Char) (c c1 : Caps) :
    (Regex.plus .any).Matches w rest c c1 ↔ c1 = c ∧ w ≠ [] ∧ '\n' ∉ w := by
  show (∃ w1 w2 c0, w = w1 ++ w2 ∧ Regex.any.Matches w1 (w2 ++ rest) c c0 ∧
      StarMatches Regex.any.Matches w2 rest c0 c1) ↔ _
  constructor
  · rintro ⟨w1, w2, c0, rfl, ⟨⟨x, hx, rfl⟩, rfl⟩, hstar⟩
    obtain ⟨rfl, hw2⟩ := (starMatches_any _ _ _ _).1 hstar
    refine ⟨rfl, by simp, ?_⟩
    simp only [List.singleton_append, List.mem_cons, not_or]
    exact ⟨fun h => hx h.symm, hw2⟩
  · rintro ⟨rfl, hne, hw⟩
    cases w with
    | nil => exact absurd rfl hne
    | cons x xs =>
      simp only [List.mem_cons, not_or] at hw
      exact ⟨[x], xs, c1, rfl, ⟨⟨x, fun h => hw.1 h.symm, rfl⟩, rfl⟩,
        (starMatches_any _ _ _ _).2 ⟨rfl, hw.2⟩⟩

theorem M_plusDigit (w rest : List Char) (c c1 : Caps) :
    (Regex.plus .digit).Matches w rest c c1 ↔
      c1 = c ∧ w ≠ [] ∧ ∀ x ∈ w, x.isDigit = true := by
  show (∃ w1 w2 c0, w = w1 ++ w2 ∧ Regex.digit.Matches w1 (w2 ++ rest) c c0 ∧
      StarMatches Regex.digit.Matches w2 rest c0 c1) ↔ _
  constructor
  · rintro ⟨w1, w2, c0, rfl, ⟨⟨x, hx, rfl⟩, rfl⟩, hstar⟩
    obtain ⟨rfl, hw2⟩ := (starMatches_digit _ _ _ _).1 hstar
    refine ⟨rfl, by simp, ?_⟩
    intro y hy
    simp only [List.singleton_append, List.mem_cons] at hy
    rcases hy with rfl | hy
    · exact hx
    · exact hw2 y hy
  · rintro ⟨rfl, hne, hw⟩
    cases w with
    | nil => exact absurd rfl hne
    | cons x xs =>
      exact ⟨[x], xs, c1, rfl, ⟨⟨x, hw x (by simp), rfl⟩, rfl⟩,
        (starMatches_digit _ _ _ _).2 ⟨rfl, fun y hy => hw y (by simp [hy])⟩⟩

theorem H_char (a : Char) (r : Regex) (w rest : List Char) (c c2 : Caps) :
    (Regex.cat (.char a) r).Matches w rest c c2 ↔
      ∃ w2, w = a :: w2 ∧ r.Matches w2 rest c c2 := by
  rw [M_cat]
  constructor
  · rintro ⟨w1, w2, c1, rfl, ⟨rfl, rfl⟩, h⟩
    exact ⟨w2, rfl, h⟩
  · rintro ⟨w2, rfl, h⟩
    exact ⟨[a], w2, c, rfl, ⟨rfl, rfl⟩, h⟩

theorem H_starAny (r : Regex) (w rest : List Char) (c c2 : Caps) :
    (Regex.cat (.star .any) r).Matches w rest c c2 ↔
      ∃ g w2, w = g ++ w2 ∧ '\n' ∉ g ∧ r.Matches w2 rest c c2 := by
  rw [M_cat]
  constructor
  · rintro ⟨w1, w2, c1, rfl, h1, h⟩
    obtain ⟨rfl, hg⟩ := (M_starAny _ _ _ _).1 h1
    exact ⟨w1, w2, rfl, hg, h⟩
  · rintro ⟨g, w2, rfl, hg, h⟩
    exact ⟨g, w2, c, rfl, (M_starAny _ _ _ _).2 ⟨rfl, hg⟩, h⟩

theorem H_plusAny (r : Regex) (w rest : List Char) (c c2 : Caps) :
    (Regex.cat (.plus .any) r).Matches w rest c c2 ↔
      ∃ g w2, w = g ++ w2 ∧ (g ≠ [] ∧ '\n' ∉ g) ∧ r.Matches w2 rest c c2 := by
  rw [M_cat]
  constructor
  · rintro ⟨w1, w2, c1, rfl, h1, h⟩
    obtain ⟨rfl, hg⟩ := (M_plusAny _ _ _ _).1 h1
    exact ⟨w1, w2, rfl, hg, h⟩
  · rintro ⟨g, w2, rfl, hg, h⟩
    exact ⟨g, w2, c, rfl, (M_plusAny _ _ _ _).2 ⟨rfl, hg⟩, h⟩

theorem H_plusDigit (r : Regex) (w rest : List Char) (c c2 : Caps) :
    (Regex.cat (.plus .digit) r).Matches w rest c c2 ↔
      ∃ g w2, w = g ++ w2 ∧ (g ≠ [] ∧ ∀ x ∈ g, x.isDigit = true) ∧
        r.Matches w2 rest c c2 := by
  rw [M_cat]
  constructor
  · rintro ⟨w1, w2, c1, rfl, h1, h⟩
    obtain ⟨rfl, hg⟩ := (M_plusDigit _ _ _ _).1 h1
    exact ⟨w1, w2, rfl, hg, h⟩
  · rintro ⟨g, w2, rfl, hg, h⟩
    exact ⟨g, w2, c, rfl, (M_plusDigit _ _ _ _).2 ⟨rfl, hg⟩, h⟩

theorem H_groupStarAny (idx : Nat) (name : List Char) (r : Regex) (w rest : List Char)
    (c c2 : Caps) :
    (Regex.cat (.group idx name (.star .any)) r).Matches w rest c c2 ↔
      ∃ g w2, w = g ++ w2 ∧ '\n' ∉ g ∧ r.Matches w2 rest (c.set idx g) c2 := by
  rw [M_cat]
  constructor
  · rintro ⟨w1, w2, c1, rfl, ⟨c0, h1, rfl⟩, h⟩
    obtain ⟨rfl, hg⟩ := (M_starAny _ _ _ _).1 h1
    exact ⟨w1, w2, rfl, hg, h⟩
  · rintro ⟨g, w2, rfl, hg, h⟩
    exact ⟨g, w2, _, rfl, ⟨c, (M_starAny _ _ _ _).2 ⟨rfl, hg⟩, rfl⟩, h⟩

theorem H_groupPlusDigit (idx : Nat) (name : List Char) (r : Regex) (w rest : List Char)
    (c c2 : Caps) :
    (Regex.cat (.group idx name (.plus .digit)) r).Matches w rest c c2 ↔
      ∃ g w2, w = g ++ w2 ∧ (g ≠ [] ∧ ∀ x ∈ g, x.isDigit = true) ∧
        r.Matches w2 rest (c.set idx g) c2 := by
  rw [M_cat]
  constructor
  · rintro ⟨w1, w2, c1, rfl, ⟨c0, h1, rfl⟩, h⟩
    obtain ⟨rfl, hg⟩ := (M_plusDigit _ _ _ _).1 h1
    exact ⟨w1, w2, rfl, hg, h⟩
  · rintro ⟨g, w2, rfl, hg, h⟩
    exact ⟨g, w2, _, rfl, ⟨c, (M_plusDigit _ _ _ _).2 ⟨rfl, hg⟩, rfl⟩, h⟩

theorem H_groupVersion (idx : Nat) (name : List Char) (r : Regex) (w rest : List Char)
    (c c2 : Caps) :
    (Regex.cat (.group idx name (.cat .digit (.cat .any .digit))) r).Matches w rest c c2 ↔
      ∃ d1 x d2 w2, w = d1 :: x :: d2 :: w2 ∧
        (d1.isDigit = true ∧ x ≠ '\n' ∧ d2.isDigit = true) ∧
        r.Matches w2 rest (c.set idx [d1, x, d2]) c2 := by
  rw [M_cat]
  constructor
  · rintro ⟨w1, w2, c1, rfl, ⟨c0, h1, rfl⟩, h⟩
    obtain ⟨v1, v2, c3, rfl, ⟨⟨d1, hd1, rfl⟩, rfl⟩, v3, v4, c4, rfl,
      ⟨⟨x, hx, rfl⟩, rfl⟩, ⟨⟨d2, hd2, rfl⟩, rfl⟩⟩ := h1
    exact ⟨d1, x, d2, w2, rfl, ⟨hd1, hx, hd2⟩, h⟩
  · rintro ⟨d1, x, d2, w2, rfl, ⟨hd1, hx, hd2⟩, h⟩
    exact ⟨[d1, x, d2], w2, _, rfl,
      ⟨c, ⟨[d1], [x, d2], c, rfl, ⟨⟨d1, hd1, rfl⟩, rfl⟩, [x], [d2], c, rfl,
        ⟨⟨x, hx, rfl⟩, rfl⟩, ⟨⟨d2, hd2, rfl⟩, rfl⟩⟩, rfl⟩, h⟩

theorem access_matches_iff (w rest : List Char) (c c2 : Caps) :
    (Regex.group 0 [] accessLogRe).Matches w rest c c2 ↔
      ∃ T U S M R d1 x d2 A G, w = accessLine T U S M R [d1, x, d2] A G ∧ rest = [] ∧
        '\n' ∉ T ∧ '\n' ∉ U ∧ (S ≠ [] ∧ ∀ y ∈ S, y.isDigit = true) ∧ '\n' ∉ M ∧ '\n' ∉ R ∧
        (d1.isDigit = true ∧ x ≠ '\n' ∧ d2.isDigit = true) ∧ '\n' ∉ A ∧ '\n' ∉ G ∧
        c2 = ((((((((c.set 1 T).set 2 U).set 3 S).set 4 M).set 5 R).set 6
          [d1, x, d2]).set 7 A).set 8 G).set 0 w := by
  rw [accessLogRe_eq]
  simp only [Regex.seq, M_group, H_char, H_groupStarAny, H_groupPlusDigit, H_groupVersion,
    M_eot]
  constructor
  · rintro ⟨c1, ⟨_, rfl, T, _, rfl, hT, _, rfl, _, rfl, U, _, rfl, hU, _, rfl, S, _, rfl, hS,
      _, rfl, _, rfl, M, _, rfl, hM, _, rfl, R, _, rfl, hR, _, rfl, _, rfl, _, rfl, _, rfl,
      _, rfl, _, rfl, d1, x, d2, _, rfl, hV, _, rfl, _, rfl, A, _, rfl, hA, _, rfl, _, rfl,
      G, _, rfl, hG, _, rfl, rfl, rfl, rfl⟩, rfl⟩
    exact ⟨T, U, S, M, R, d1, x, d2, A, G, rfl, rfl, hT, hU, hS, hM, hR, hV, hA, hG, rfl⟩
  · rintro ⟨T, U, S, M, R, d1, x, d2, A, G, rfl, rfl, hT, hU, hS, hM, hR, hV, hA, hG, rfl⟩
    exact ⟨_, ⟨_, rfl, T, _, rfl, hT, _, rfl, _, rfl, U, _, rfl, hU, _, rfl, S, _, rfl, hS,
      _, rfl, _, rfl, M, _, rfl, hM, _, rfl, R, _, rfl, hR, _, rfl, _, rfl, _, rfl, _, rfl,
      _, rfl, _, rfl, d1, x, d2, _, rfl, hV, _, rfl, _, rfl, A, _, rfl, hA, _, rfl, _, rfl,
      G, _, rfl, hG, _, rfl, rfl, rfl, rfl⟩, rfl⟩

/-! ## The result of a search -/

theorem StarMatches_length (R : List Char → List Char → Caps → Caps → Prop)
    (hR : ∀ w rest c c1, R w rest c c1 → c1.length = c.length)
    (w rest : List Char) (c c1 : Caps) (h : StarMatches R w rest c c1) :
    c1.length = c.length := by
  induction h with
  | nil rest c => rfl
  | cons w1 w2 rest c c1 c2 _ h1 _ ih => rw [ih, hR _ _ _ _ h1]

theorem Regex.Matches_length (r : Regex) :
    ∀ w rest c c1, r.Matches w rest c c1 → c1.length = c.length := by
  induction r with
  | empty => intro w rest c c1 h; rw [h.2]
  | char a => intro w rest c c1 h; rw [h.2]
  | any => intro w rest c c1 h; rw [h.2]
  | digit => intro w rest c c1 h; rw [h.2]
  | eot => intro w rest c c1 h; rw [h.2.2]
  | cat a b iha ihb =>
    rintro w rest c c2 ⟨w1, w2, c1, _, hA, hB⟩
    rw [ihb _ _ _ _ hB, iha _ _ _ _ hA]
  | star r ih =>
    intro w rest c c1 h
    exact StarMatches_length _ ih _ _ _ _ h
  | plus r ih =>
    rintro w rest c c2 ⟨w1, w2, c1, _, hA, hB⟩
    rw [StarMatches_length _ ih _ _ _ _ hB, ih _ _ _ _ hA]
  | group idx name r ih =>
    rintro w rest c c2 ⟨c1, hA, rfl⟩
    rw [List.length_set, ih _ _ _ _ hA]

theorem run_accept_matches (re : Regex) (s : List Char) (init c : Caps)
    (h : (Regex.group 0 [] re).run s init accept = some c) :
    ∃ w rest, s = w ++ rest ∧ (Regex.group 0 [] re).Matches w rest init c := by
  obtain ⟨w, rest, c1, hs, hM, hk⟩ := Regex.run_sound _ _ _ _ _ h
  simp only [accept, Option.some.injEq] at hk
  subst hk
  exact ⟨w, rest, hs, hM⟩

theorem searchFrom_some (re : Regex) (init : Caps) (s : List Char) (c : Caps)
    (h : searchFrom re init s = some c) :
    ∃ pre w rest, s = pre ++ (w ++ rest) ∧ (Regex.group 0 [] re).Matches w rest init c := by
  induction s with
  | nil =>
    rw [searchFrom] at h
    obtain ⟨w, rest, hs, hM⟩ := run_accept_matches _ _ _ _ h
    exact ⟨[], w, rest, hs, hM⟩
  | cons x xs ih =>
    rw [searchFrom] at h
    split at h
    · rename_i c0 hrun
      cases h
      obtain ⟨w, rest, hs, hM⟩ := run_accept_matches _ _ _ _ hrun
      exact ⟨[], w, rest, hs, hM⟩
    · obtain ⟨pre, w, rest, hs, hM⟩ := ih h
      exact ⟨x :: pre, w, rest, by rw [hs]; rfl, hM⟩

theorem searchFrom_head (re : Regex) (init : Caps) (s : List Char) (c : Caps)
    (h : (Regex.group 0 [] re).run s init accept = some c) :
    searchFrom re init s = some c := by
  cases s with
  | nil => rw [searchFrom]; exact h
  | cons x xs => rw [searchFrom, h]

theorem FindStringSubmatch_length (re : Regex) (s : List Char) :
    FindStringSubmatch re s = [] ∨ (FindStringSubmatch re s).length = NumSubexp re + 1 := by
  unfold FindStringSubmatch
  cases h : searchFrom re (List.replicate (NumSubexp re + 1) []) s with
  | none => exact Or.inl rfl
  | some c =>
    right
    obtain ⟨pre, w, rest, _, hM⟩ := searchFrom_some _ _ _ _ h
    simpa using Regex.Matches_length _ _ _ _ _ hM

/-! ## Filling the record -/

theorem SubexpNames_accessLogRe : SubexpNames accessLogRe =
    [[], "Time".toList, "HTTPXUsername".toList, "Status".toList, "Method".toList,
      "URL".toList, "HTTPVersion".toList, "UpstreamAddr".toList, "UserAgent".toList] := by
  decide!

theorem NumSubexp_accessLogRe : NumSubexp accessLogRe = 8 := by decide!

theorem NumSubexp_errorLogRe : NumSubexp errorLogRe = 1 := by decide!

theorem populate_nomatch {T U : Type} (lib : Lib T U) (l : logline T U) (s : List Char)
    (h : FindStringSubmatch accessLogRe s = []) : populate lib l s = some l := by
  unfold populate
  rw [h, SubexpNames_accessLogRe]
  rfl

theorem populate_match {T U : Type} (lib : Lib T U) (l : logline T U) (s : List Char)
    (a0 a1 a2 a3 a4 a5 a6 a7 a8 : List Char)
    (h : FindStringSubmatch accessLogRe s = [a0, a1, a2, a3, a4, a5, a6, a7, a8]) :
    populate lib l s = some
      { Time := (lib.timeParse a1).getD lib.zeroTime, HTTPXUsername := a2,
        Status := (Atoi a3).1, Method := a4, URL := a5, HTTPVersion := a6,
        UpstreamAddr := a7, UserAgent := some (lib.uaNew a8), Message := l.Message } := by
  unfold populate
  rw [h, SubexpNames_accessLogRe]
  rfl

theorem list_length_nine (m : List (List Char)) (h : m.length = 9) :
    ∃ a0 a1 a2 a3 a4 a5 a6 a7 a8, m = [a0, a1, a2, a3, a4, a5, a6, a7, a8] := by
  match m, h with
  | [a0, a1, a2, a3, a4, a5, a6, a7, a8], _ => exact ⟨_, _, _, _, _, _, _, _, _, rfl⟩

theorem populate_isSome {T U : Type} (lib : Lib T U) (l : logline T U) (s : List Char) :
    (populate lib l s).isSome = true := by
  rcases FindStringSubmatch_length accessLogRe s with h | h
  · rw [populate_nomatch lib l s h]; rfl
  · rw [NumSubexp_accessLogRe] at h
    obtain ⟨a0, a1, a2, a3, a4, a5, a6, a7, a8, hm⟩ := list_length_nine _ h
    rw [populate_match lib l s _ _ _ _ _ _ _ _ _ hm]; rfl
/-! ## One iteration of the loop -/

theorem mainLoop_plain {T U : Type} (lib : Lib T U) (r : ReadResult) (rest : List ReadResult)
    (h : Contains r.text errorMarker = false) :
    mainLoop lib (r :: rest) =
      Trace.emit (populate lib (logline.zero lib) r.text) (mainLoop lib rest) := by
  cases rest <;> simp [mainLoop, h]

theorem wholeIterations_plain (r : ReadResult) (rest : List ReadResult)
    (h : Contains r.text errorMarker = false) :
    wholeIterations (r :: rest) = wholeIterations rest := by
  cases rest <;> simp [wholeIterations, h]

theorem mainLoop_paired {T U : Type} (lib : Lib T U) (r r2 : ReadResult)
    (rest : List ReadResult) (h : Contains r.text errorMarker = true) :
    mainLoop lib (r :: r2 :: rest) =
      Trace.emit
        (populate lib { logline.zero lib with Message := errorMessage r.text } r2.text)
        (mainLoop lib rest) := by
  simp [mainLoop, h]

theorem mainLoop_orphan {T U : Type} (lib : Lib T U) (r : ReadResult)
    (h : Contains r.text errorMarker = true) :
    mainLoop lib [r] = { events := [], outcome := .halted } := by
  simp [mainLoop, h]

theorem populate_frame {T U : Type} (lib : Lib T U) (msg x : List Char) :
    ∃ ax, populate lib (logline.zero lib) x = some ax ∧ ax.Message = [] ∧
      populate lib { logline.zero lib with Message := msg } x =
        some { ax with Message := msg } := by
  rcases FindStringSubmatch_length accessLogRe x with h | h
  · exact ⟨logline.zero lib, populate_nomatch lib _ x h, rfl, populate_nomatch lib _ x h⟩
  · rw [NumSubexp_accessLogRe] at h
    obtain ⟨a0, a1, a2, a3, a4, a5, a6, a7, a8, hm⟩ := list_length_nine _ h
    exact ⟨_, populate_match lib _ x _ _ _ _ _ _ _ _ _ hm, rfl,
      populate_match lib _ x _ _ _ _ _ _ _ _ _ hm⟩

theorem mainLoop_plain_event {T U : Type} (lib : Lib T U) (r : ReadResult)
    (rest : List ReadResult) (h : Contains r.text errorMarker = false) :
    ∃ ax, populate lib (logline.zero lib) r.text = some ax ∧ ax.Message = [] ∧
      mainLoop lib (r :: rest) =
        { events := ax :: (mainLoop lib rest).events,
          outcome := (mainLoop lib rest).outcome } := by
  obtain ⟨ax, h1, h2, _⟩ := populate_frame lib [] r.text
  exact ⟨ax, h1, h2, by rw [mainLoop_plain lib r rest h, h1]; rfl⟩

theorem mainLoop_paired_event {T U : Type} (lib : Lib T U) (r r2 : ReadResult)
    (rest : List ReadResult) (h : Contains r.text errorMarker = true) :
    ∃ ax, populate lib (logline.zero lib) r2.text = some ax ∧
      mainLoop lib (r :: r2 :: rest) =
        { events := { ax with Message := errorMessage r.text } :: (mainLoop lib rest).events,
          outcome := (mainLoop lib rest).outcome } := by
  obtain ⟨ax, h1, _, h3⟩ := populate_frame lib (errorMessage r.text) r2.text
  exact ⟨ax, h1, by rw [mainLoop_paired lib r r2 rest h, h3]; rfl⟩

theorem mainLoop_halted {T U : Type} (lib : Lib T U) :
    ∀ n (reads : List ReadResult), reads.length ≤ n →
      (mainLoop lib reads).outcome = .halted := by
  intro n
  induction n with
  | zero =>
    intro reads h
    cases reads with
    | nil => rfl
    | cons r rest => simp at h
  | succ n ih =>
    intro reads h
    cases reads with
    | nil => rfl
    | cons r rest =>
      simp only [List.length_cons, Nat.add_le_add_iff_right] at h
      by_cases hm : Contains r.text errorMarker = true
      · cases rest with
        | nil => rw [mainLoop_orphan lib r hm]
        | cons r2 rest2 =>
          obtain ⟨ax, _, heq⟩ := mainLoop_paired_event lib r r2 rest2 hm
          rw [heq]
          exact ih rest2 (by simp at h; omega)
      · simp only [Bool.not_eq_true] at hm
        obtain ⟨ax, _, _, heq⟩ := mainLoop_plain_event lib r rest hm
        rw [heq]
        exact ih rest h

theorem mainLoop_append_orphan {T U : Type} (lib : Lib T U) (e : ReadResult)
    (he : Contains e.text errorMarker = true) :
    ∀ n (pre : List ReadResult), pre.length ≤ n → wholeIterations pre = true →
      mainLoop lib (pre ++ [e]) = mainLoop lib pre := by
  intro n
  induction n with
  | zero =>
    intro pre h _
    cases pre with
    | nil => rw [List.nil_append, mainLoop_orphan lib e he]; rfl
    | cons r rest => simp at h
  | succ n ih =>
    intro pre h hw
    cases pre with
    | nil => rw [List.nil_append, mainLoop_orphan lib e he]; rfl
    | cons r rest =>
      simp only [List.length_cons, Nat.add_le_add_iff_right] at h
      by_cases hm : Contains r.text errorMarker = true
      · cases rest with
        | nil => simp [wholeIterations, hm] at hw
        | cons r2 rest2 =>
          simp only [wholeIterations, hm, if_true] at hw
          rw [List.cons_append, List.cons_append, mainLoop_paired lib r r2 _ hm,
            mainLoop_paired lib r r2 _ hm, ih rest2 (by simp at h; omega) hw]
      · simp only [Bool.not_eq_true] at hm
        rw [wholeIterations_plain r rest hm] at hw
        rw [List.cons_append, mainLoop_plain lib r _ hm, mainLoop_plain lib r _ hm,
          ih rest h hw]

theorem mainLoop_append_events {T U : Type} (lib : Lib T U) (tail : List ReadResult) :
    ∀ n (pre : List ReadResult), pre.length ≤ n → wholeIterations pre = true →
      (mainLoop lib (pre ++ tail)).events =
        (mainLoop lib pre).events ++ (mainLoop lib tail).events := by
  intro n
  induction n with
  | zero =>
    intro pre h _
    cases pre with
    | nil => rfl
    | cons r rest => simp at h
  | succ n ih =>
    intro pre h hw
    cases pre with
    | nil => rfl
    | cons r rest =>
      simp only [List.length_cons, Nat.add_le_add_iff_right] at h
      by_cases hm : Contains r.text errorMarker = true
      · cases rest with
        | nil => simp [wholeIterations, hm] at hw
        | cons r2 rest2 =>
          simp only [wholeIterations, hm, if_true] at hw
          obtain ⟨ax, _, h1⟩ := mainLoop_paired_event lib r r2 (rest2 ++ tail) hm
          obtain ⟨ax2, _, h2⟩ := mainLoop_paired_event lib r r2 rest2 hm
          rw [List.cons_append, List.cons_append, h1, h2]
          have := ih rest2 (by simp at h; omega) hw
          simp_all
      · simp only [Bool.not_eq_true] at hm
        rw [wholeIterations_plain r rest hm] at hw
        obtain ⟨ax, _, _, h1⟩ := mainLoop_plain_event lib r (rest ++ tail) hm
        obtain ⟨ax2, _, _, h2⟩ := mainLoop_plain_event lib r rest hm
        rw [List.cons_append, h1, h2]
        have := ih rest h hw
        simp_all

theorem errorMessage_eq (s : List Char) :
    errorMessage s = (FindStringSubmatch errorLogRe s).getD 1 [] := by
  unfold errorMessage
  rcases FindStringSubmatch_length errorLogRe s with h | h
  · simp [h]
  · rw [NumSubexp_errorLogRe] at h
    simp [h]
/-! ## strconv.Atoi on texts of digits -/

theorem isDigit_toNat (ch : Char) (h : ch.isDigit = true) : 48 ≤ ch.toNat ∧ ch.toNat ≤ 57 := by
  simp only [Char.isDigit, Bool.and_eq_true, decide_eq_true_eq] at h
  exact ⟨h.1, h.2⟩

theorem isDigit_ne_sign (ch : Char) (h : ch.isDigit = true) : ch ≠ '-' ∧ ch ≠ '+' := by
  constructor
  · rintro rfl
    exact absurd h (by decide)
  · rintro rfl
    exact absurd h (by decide)

theorem decimalFrom_cons (n : Nat) (ch : Char) (s : List Char) :
    decimalFrom n (ch :: s) = decimalFrom (n * 10 + (ch.toNat - 48)) s := rfl

theorem decimalFrom_ge (s : List Char) : ∀ n, n ≤ decimalFrom n s := by
  induction s with
  | nil => intro n; exact le_refl _
  | cons ch s ih =>
    intro n
    rw [decimalFrom_cons]
    have := ih (n * 10 + (ch.toNat - 48))
    omega

theorem decimalFrom_lt (s : List Char) (hs : ∀ ch ∈ s, ch.isDigit = true) :
    ∀ n, decimalFrom n s < (n + 1) * 10 ^ s.length := by
  induction s with
  | nil => intro n; simp [decimalFrom]
  | cons ch s ih =>
    intro n
    rw [decimalFrom_cons]
    have h1 := ih (fun x hx => hs x (List.mem_cons_of_mem _ hx)) (n * 10 + (ch.toNat - 48))
    have h2 := isDigit_toNat ch (hs ch (List.mem_cons_self _ _))
    have h3 : (n * 10 + (ch.toNat - 48) + 1) * 10 ^ s.length ≤ ((n + 1) * 10) * 10 ^ s.length :=
      Nat.mul_le_mul_right _ (by omega)
    rw [List.length_cons, pow_succ]
    calc decimalFrom (n * 10 + (ch.toNat - 48)) s
        < (n * 10 + (ch.toNat - 48) + 1) * 10 ^ s.length := h1
      _ ≤ ((n + 1) * 10) * 10 ^ s.length := h3
      _ = (n + 1) * (10 ^ s.length * 10) := by ring

theorem atoiFast_digits (s : List Char) (hs : ∀ ch ∈ s, ch.isDigit = true) :
    ∀ n, atoiFast n s = some (decimalFrom n s) := by
  induction s with
  | nil => intro n; rfl
  | cons ch s ih =>
    intro n
    rw [atoiFast, if_pos (hs ch (List.mem_cons_self _ _)), decimalFrom_cons]
    exact ih (fun x hx => hs x (List.mem_cons_of_mem _ hx)) _

theorem parseUintFrom_digits (s : List Char) (hs : ∀ ch ∈ s, ch.isDigit = true) :
    ∀ n, n ≤ 2 ^ 64 - 1 →
      parseUintFrom n s =
        if decimalFrom n s ≤ 2 ^ 64 - 1 then (decimalFrom n s, none)
        else (2 ^ 64 - 1, some .errRange) := by
  induction s with
  | nil =>
    intro n hn
    show (n, none) = if n ≤ 2 ^ 64 - 1 then (n, none) else (2 ^ 64 - 1, some NumError.errRange)
    rw [if_pos hn]
  | cons ch s ih =>
    intro n hn
    have hd := hs ch (List.mem_cons_self _ _)
    have hge := decimalFrom_ge s (n * 10 + (ch.toNat - 48))
    rw [parseUintFrom, decimalFrom_cons]
    simp only [hd, Bool.not_true, Bool.false_eq_true, if_false]
    by_cases h1 : n ≥ (2 ^ 64 - 1) / 10 + 1
    · rw [if_pos h1, if_neg]
      norm_num at h1 ⊢
      omega
    · rw [if_neg h1]
      by_cases h2 : n * 10 + (ch.toNat - 48) > 2 ^ 64 - 1
      · rw [if_pos h2, if_neg]
        omega
      · rw [if_neg h2]
        exact ih (fun x hx => hs x (List.mem_cons_of_mem _ hx)) _ (by omega)

theorem length_le_byteLen (s : List Char) : s.length ≤ byteLen s := by
  induction s with
  | nil => simp [byteLen]
  | cons ch s ih =>
    have := Char.utf8Size_pos ch
    simp only [byteLen, List.map_cons, List.sum_cons, List.length_cons] at ih ⊢
    omega

/-- On a non-empty text of digits `Atoi` returns the number it denotes when that is
below 2^63, and otherwise the largest `int` together with a range error. -/
theorem Atoi_digits (s : List Char) (hne : s ≠ []) (hs : ∀ ch ∈ s, ch.isDigit = true) :
    Atoi s =
      if decimalValue s < 2 ^ 63 then ((decimalValue s : Int), none)
      else (2 ^ 63 - 1, some .errRange) := by
  cases s with
  | nil => exact absurd rfl hne
  | cons c0 rest =>
    have hc0 := isDigit_ne_sign c0 (hs c0 (List.mem_cons_self _ _))
    unfold Atoi
    by_cases hfast : 0 < byteLen (c0 :: rest) ∧ byteLen (c0 :: rest) < 19
    · rw [if_pos hfast]
      have hlen : (c0 :: rest).length < 19 :=
        lt_of_le_of_lt (length_le_byteLen _) hfast.2
      have hlt := decimalFrom_lt (c0 :: rest) hs 0
      have hpow : 10 ^ (c0 :: rest).length ≤ 10 ^ 18 :=
        Nat.pow_le_pow_right (by norm_num) (by omega)
      have hval : decimalValue (c0 :: rest) < 2 ^ 63 := by
        unfold decimalValue
        norm_num at hlt hpow ⊢
        omega
      simp only [hc0.1, hc0.2, or_self, if_false, List.length_cons]
      rw [if_neg (by omega), atoiFast_digits _ hs 0, if_pos hval]
      rfl
    · rw [if_neg hfast]
      unfold ParseInt
      simp only [hc0.1, hc0.2, or_self, if_false, decide_False]
      unfold ParseUint
      simp only
      rw [parseUintFrom_digits _ hs 0 (by norm_num)]
      unfold decimalValue intSize
      by_cases hfit : decimalFrom 0 (c0 :: rest) ≤ 2 ^ 64 - 1
      · rw [if_pos hfit]
        by_cases hval : decimalFrom 0 (c0 :: rest) < 2 ^ 63
        · rw [if_pos hval]
          simp only [Bool.not_false, Bool.true_and, Bool.false_and, Bool.false_eq_true,
            if_false, decide_eq_true_eq]
          rw [if_neg (by norm_num at hval ⊢; omega)]
        · rw [if_neg hval]
          simp only [Bool.not_false, Bool.true_and, decide_eq_true_eq]
          rw [if_pos (by norm_num at hval ⊢; omega)]
          norm_num
      · rw [if_neg hfit, if_neg (by norm_num at hfit ⊢; omega)]
        simp only [Bool.not_false, Bool.true_and, decide_eq_true_eq]
        rw [if_pos (by norm_num)]
        norm_num
/-! ## Splitting a text at a separator -/

theorem split_first (q : Char) (x x1 y y1 : List Char) (hx : q ∉ x) (hx1 : q ∉ x1)
    (h : x ++ q :: y = x1 ++ q :: y1) : x = x1 ∧ y = y1 := by
  induction x generalizing x1 with
  | nil =>
    cases x1 with
    | nil => exact ⟨rfl, by simpa using h⟩
    | cons b x2 =>
      simp only [List.nil_append, List.cons_append, List.cons.injEq] at h
      exact absurd (h.1 ▸ List.mem_cons_self _ _) hx1
  | cons a xs ih =>
    cases x1 with
    | nil =>
      simp only [List.nil_append, List.cons_append, List.cons.injEq] at h
      exact absurd (h.1 ▸ List.mem_cons_self _ _) hx
    | cons b x2 =>
      simp only [List.cons_append, List.cons.injEq] at h
      obtain ⟨h1, h2⟩ := ih x2 (fun hm => hx (List.mem_cons_of_mem _ hm))
        (fun hm => hx1 (List.mem_cons_of_mem _ hm)) h.2
      exact ⟨by rw [h.1, h1], h2⟩

theorem split_last (q : Char) (x x1 y y1 : List Char) (hy : q ∉ y) (hy1 : q ∉ y1)
    (h : x ++ q :: y = x1 ++ q :: y1) : x = x1 ∧ y = y1 := by
  have hr : y.reverse ++ q :: x.reverse = y1.reverse ++ q :: x1.reverse := by
    have := congrArg List.reverse h
    simpa using this
  obtain ⟨h1, h2⟩ := split_first q _ _ _ _ (by simpa using hy) (by simpa using hy1) hr
  exact ⟨List.reverse_injective h2, List.reverse_injective h1⟩

theorem not_mem_of_count (q : Char) (l : List Char) (h : l.count q = 0) : q ∉ l :=
  List.count_eq_zero.1 h

theorem count_of_not_mem (q : Char) (l : List Char) (h : q ∉ l) : l.count q = 0 :=
  List.count_eq_zero.2 h

theorem digits_no_char (q : Char) (hq : q.isDigit = false) (s : List Char)
    (hs : ∀ z ∈ s, z.isDigit = true) : q ∉ s := by
  intro hm
  rw [hs q hm] at hq
  exact absurd hq (by decide)

/-! ## An access line has one reading -/

theorem accessLine_quote_count (t c s m u v a g : List Char) :
    (accessLine t c s m u v a g).count '"' =
      4 + t.count '"' + c.count '"' + s.count '"' + m.count '"' + u.count '"' +
        v.count '"' + a.count '"' + g.count '"' := by
  simp only [accessLine, List.count_cons, List.count_append, List.count_nil]
  simp
  omega

theorem accessLine_split (t c s m u v a g : List Char) :
    accessLine t c s m u v a g =
      ('[' :: (t ++ ']' :: ' ' :: (c ++ ' ' :: (s ++ [' '])))) ++ '"' ::
        ((m ++ ' ' :: (u ++ ' ' :: 'H' :: 'T' :: 'T' :: 'P' :: '/' :: v)) ++ '"' ::
          ((' ' :: (a ++ [' '])) ++ '"' :: (g ++ ['"']))) := by
  simp [accessLine]

theorem accessLine_inj (t c s m u v a g T U S M R V A G : List Char)
    (hq : '"' ∉ t ∧ '"' ∉ c ∧ '"' ∉ s ∧ '"' ∉ m ∧ '"' ∉ u ∧ '"' ∉ v ∧ '"' ∉ a ∧ '"' ∉ g)
    (hb : ']' ∉ t ∧ ']' ∉ c) (hsp : ' ' ∉ m ∧ ' ' ∉ u)
    (hs : ' ' ∉ s) (hS : ' ' ∉ S) (hv : v.length = V.length)
    (h : accessLine t c s m u v a g = accessLine T U S M R V A G) :
    T = t ∧ U = c ∧ S = s ∧ M = m ∧ R = u ∧ V = v ∧ A = a ∧ G = g := by
  obtain ⟨hqt, hqc, hqs, hqm, hqu, hqv, hqa, hqg⟩ := hq
  have hcount := congrArg (List.count '"') h
  rw [accessLine_quote_count, accessLine_quote_count, count_of_not_mem _ _ hqt,
    count_of_not_mem _ _ hqc, count_of_not_mem _ _ hqs, count_of_not_mem _ _ hqm,
    count_of_not_mem _ _ hqu, count_of_not_mem _ _ hqv, count_of_not_mem _ _ hqa,
    count_of_not_mem _ _ hqg] at hcount
  have hT := not_mem_of_count '"' T (by omega)
  have hU := not_mem_of_count '"' U (by omega)
  have hS' := not_mem_of_count '"' S (by omega)
  have hM := not_mem_of_count '"' M (by omega)
  have hR := not_mem_of_count '"' R (by omega)
  have hV := not_mem_of_count '"' V (by omega)
  have hA := not_mem_of_count '"' A (by omega)
  have hG := not_mem_of_count '"' G (by omega)
  rw [accessLine_split, accessLine_split] at h
  obtain ⟨h0, h⟩ := split_first '"' _ _ _ _
    (by simp [hqt, hqc, hqs]) (by simp [hT, hU, hS']) h
  obtain ⟨h1, h⟩ := split_first '"' _ _ _ _
    (by simp [hqm, hqu, hqv]) (by simp [hM, hR, hV]) h
  obtain ⟨h2, h⟩ := split_first '"' _ _ _ _
    (by simp [hqa]) (by simp [hA]) h
  have h3 : g = G := List.append_cancel_right h
  -- the upstream address
  have h2a : a = A := by
    simp only [List.cons.injEq, true_and] at h2
    exact List.append_cancel_right h2
  -- the request
  have h1' : (m ++ ' ' :: u) ++ (' ' :: 'H' :: 'T' :: 'T' :: 'P' :: '/' :: v) =
      (M ++ ' ' :: R) ++ (' ' :: 'H' :: 'T' :: 'T' :: 'P' :: '/' :: V) := by
    simpa using h1
  obtain ⟨h1a, h1b⟩ := List.append_inj' h1' (by simp [hv])
  have hvV : v = V := by simpa using h1b
  have hspc := congrArg (List.count ' ') h1a
  simp only [List.count_append, List.count_cons, beq_self_eq_true, if_true,
    count_of_not_mem _ _ hsp.1, count_of_not_mem _ _ hsp.2] at hspc
  obtain ⟨hmM, huR⟩ := split_first ' ' _ _ _ _ hsp.1
    (not_mem_of_count ' ' M (by omega)) h1a
  -- the time, the user name and the status
  have h0' : (t ++ ']' :: ' ' :: c) ++ ' ' :: s = (T ++ ']' :: ' ' :: U) ++ ' ' :: S := by
    simp only [List.cons.injEq, true_and] at h0
    have h00 : ((t ++ ']' :: ' ' :: c) ++ ' ' :: s) ++ [' '] =
        ((T ++ ']' :: ' ' :: U) ++ ' ' :: S) ++ [' '] := by
      simpa using h0
    exact List.append_cancel_right h00
  obtain ⟨h0a, hsS⟩ := split_last ' ' _ _ _ _ hs hS h0'
  have hbc := congrArg (List.count ']') h0a
  simp only [List.count_append, List.count_cons, beq_self_eq_true, if_true,
    count_of_not_mem _ _ hb.1, count_of_not_mem _ _ hb.2] at hbc
  have hbT : ']' ∉ T := not_mem_of_count ']' T (by
    simp at hbc
    omega)
  obtain ⟨htT, hcU⟩ := split_first ']' _ _ _ _ hb.1 hbT h0a
  simp only [List.cons.injEq, true_and] at hcU
  exact ⟨htT.symm, hcU.symm, hsS.symm, hmM.symm, huR.symm, hvV.symm, h2a.symm, h3.symm⟩
/-! ## Greedy repetition of `.` -/

theorem starLoop_any_stop (k : Cont) (fuel : Nat) (s : List Char) (c : Caps)
    (h : s = [] ∨ ∃ xs, s = '\n' :: xs) :
    starLoop Regex.any.run (fuel + 1) s c k = k s c := by
  rcases h with rfl | ⟨xs, rfl⟩
  · simp [starLoop, Regex.run]
  · simp [starLoop, Regex.run]

theorem starLoop_any_cons (k : Cont) (fuel : Nat) (x : Char) (xs : List Char) (c : Caps)
    (hx : x ≠ '\n') :
    starLoop Regex.any.run (fuel + 1) (x :: xs) c k =
      match starLoop Regex.any.run fuel xs c k with
      | some r => some r
      | none => k (x :: xs) c := by
  have hbody : Regex.any.run (x :: xs) c (fun s1 c1 =>
      if s1.length < (x :: xs).length then starLoop Regex.any.run fuel s1 c1 k else none) =
      starLoop Regex.any.run fuel xs c k := by
    simp [Regex.run, hx]
  rw [starLoop, hbody]

theorem starAny_none (k : Cont) :
    ∀ fuel s c, starLoop Regex.any.run fuel s c k = none →
      s.length ≤ fuel → ∀ g rest, s = g ++ rest → '\n' ∉ g → k rest c = none := by
  intro fuel
  induction fuel with
  | zero =>
    intro s c h hlen g rest hs _
    have hs0 : s = [] := List.length_eq_zero.1 (Nat.le_zero.1 hlen)
    subst hs0
    obtain ⟨rfl, rfl⟩ := List.append_eq_nil.1 hs.symm
    exact h
  | succ fuel ih =>
    intro s c h hlen g rest hs hg
    cases g with
    | nil =>
      simp only [List.nil_append] at hs
      subst hs
      rw [starLoop] at h
      split at h
      · cases h
      · exact h
    | cons x g2 =>
      subst hs
      have hx : x ≠ '\n' := fun h0 => hg (h0 ▸ List.mem_cons_self _ _)
      rw [List.cons_append, starLoop_any_cons k fuel x _ c hx] at h
      cases hsl : starLoop Regex.any.run fuel (g2 ++ rest) c k with
      | some r => rw [hsl] at h; cases h
      | none =>
        exact ih _ _ hsl (by simpa using hlen) g2 rest rfl
          (fun hm => hg (List.mem_cons_of_mem _ hm))

theorem starAny_greedy (k : Cont) :
    ∀ fuel s c res, starLoop Regex.any.run fuel s c k = some res → s.length ≤ fuel →
      ∃ g rest, s = g ++ rest ∧ '\n' ∉ g ∧ k rest c = some res ∧
        ∀ g1 rest1, s = g1 ++ rest1 → '\n' ∉ g1 → g.length < g1.length →
          k rest1 c = none := by
  intro fuel
  induction fuel with
  | zero =>
    intro s c res h hlen
    have hs0 : s = [] := List.length_eq_zero.1 (Nat.le_zero.1 hlen)
    subst hs0
    refine ⟨[], [], rfl, by simp, h, ?_⟩
    intro g1 rest1 hs _ hl
    obtain ⟨rfl, rfl⟩ := List.append_eq_nil.1 hs.symm
    simp at hl
  | succ fuel ih =>
    intro s c res h hlen
    cases s with
    | nil =>
      rw [starLoop_any_stop k fuel [] c (Or.inl rfl)] at h
      refine ⟨[], [], rfl, by simp, h, ?_⟩
      intro g1 rest1 hs _ hl
      obtain ⟨rfl, rfl⟩ := List.append_eq_nil.1 hs.symm
      simp at hl
    | cons x xs =>
      by_cases hx : x = '\n'
      · subst hx
        rw [starLoop_any_stop k fuel _ c (Or.inr ⟨xs, rfl⟩)] at h
        refine ⟨[], '\n' :: xs, rfl, by simp, h, ?_⟩
        intro g1 rest1 hs hg1 hl
        cases g1 with
        | nil => simp at hl
        | cons y g2 =>
          simp only [List.cons_append, List.cons.injEq] at hs
          exact absurd (hs.1 ▸ List.mem_cons_self _ _) hg1
      · rw [starLoop_any_cons k fuel x xs c hx] at h
        cases hsl : starLoop Regex.any.run fuel xs c k with
        | some r =>
          rw [hsl] at h
          simp only [Option.some.injEq] at h
          subst h
          obtain ⟨g0, rest, hs, hg0, hk, hmax⟩ := ih xs c r hsl (by simpa using hlen)
          refine ⟨x :: g0, rest, by rw [hs]; rfl, ?_, hk, ?_⟩
          · simp only [List.mem_cons, not_or]
            exact ⟨fun h0 => hx h0.symm, hg0⟩
          · intro g1 rest1 hs1 hg1 hl
            cases g1 with
            | nil => simp at hl
            | cons y g2 =>
              simp only [List.cons_append, List.cons.injEq] at hs1
              exact hmax g2 rest1 hs1.2 (fun hm => hg1 (List.mem_cons_of_mem _ hm))
                (by simpa using hl)
        | none =>
          rw [hsl] at h
          refine ⟨[], x :: xs, rfl, by simp, h, ?_⟩
          intro g1 rest1 hs1 hg1 hl
          cases g1 with
          | nil => simp at hl
          | cons y g2 =>
            simp only [List.cons_append, List.cons.injEq] at hs1
            exact starAny_none k fuel xs c hsl (by simpa using hlen) g2 rest1 hs1.2
              (fun hm => hg1 (List.mem_cons_of_mem _ hm))

theorem run_cat_sound (a b : Regex) (s : List Char) (c : Caps) (k : Cont) (res : Caps)
    (h : (Regex.cat a b).run s c k = some res) :
    ∃ w rest c1, s = w ++ rest ∧ a.Matches w rest c c1 ∧ b.run rest c1 k = some res := by
  rw [Regex.run] at h
  exact Regex.run_sound a _ _ _ _ h

theorem run_groupStarAny_cat (idx : Nat) (name : List Char) (b : Regex) (s : List Char)
    (c : Caps) (k : Cont) :
    (Regex.cat (.group idx name (.star .any)) b).run s c k =
      starLoop Regex.any.run s.length s c
        (fun s1 c1 => b.run s1 (c1.set idx (s.take (s.length - s1.length))) k) := rfl

theorem searchFrom_some_run (re : Regex) (init : Caps) (s : List Char) (c : Caps)
    (h : searchFrom re init s = some c) :
    ∃ pre s0, s = pre ++ s0 ∧ (Regex.group 0 [] re).run s0 init accept = some c := by
  induction s with
  | nil =>
    rw [searchFrom] at h
    exact ⟨[], [], rfl, h⟩
  | cons x xs ih =>
    rw [searchFrom] at h
    split at h
    · rename_i c0 hrun
      cases h
      exact ⟨[], x :: xs, rfl, hrun⟩
    · obtain ⟨pre, s0, hs, hrun⟩ := ih h
      exact ⟨x :: pre, s0, by rw [hs]; rfl, hrun⟩

/-! ## The error pattern -/

theorem errorLogRe_eq : errorLogRe = Regex.seq
    [ .char ' ', .char '[', .plus .any, .char ']', .char ' ', .star .any, .char ' ',
      .char '*', .plus .digit, .char ' ',
      .cat (.group 1 "Message".toList (.star .any)) errorTail ] := by
  decide!

theorem errorTail_matches_iff (w rest : List Char) (c c1 : Caps) :
    errorTail.Matches w rest c c1 ↔
      ∃ x y, w = clientMark ++ (x ++ (serverMark ++ y)) ∧ '\n' ∉ x ∧ '\n' ∉ y ∧ c1 = c := by
  simp only [errorTail, Regex.seq, H_char, H_starAny, M_starAny]
  constructor
  · rintro ⟨_, rfl, _, rfl, _, rfl, _, rfl, _, rfl, _, rfl, _, rfl, _, rfl, _, rfl, x, _, rfl,
      hx, _, rfl, _, rfl, _, rfl, _, rfl, _, rfl, _, rfl, _, rfl, _, rfl, y, rfl, rfl, hy⟩
    exact ⟨x, y, rfl, hx, hy, rfl⟩
  · rintro ⟨x, y, rfl, hx, hy, rfl⟩
    exact ⟨_, rfl, _, rfl, _, rfl, _, rfl, _, rfl, _, rfl, _, rfl, _, rfl, _, rfl, x, _, rfl,
      hx, _, rfl, _, rfl, _, rfl, _, rfl, _, rfl, _, rfl, _, rfl, _, rfl, y, rfl, rfl, hy⟩
/-! ## The extent of the error message -/

theorem error_run (s0 : List Char) (init caps : Caps)
    (hrun : (Regex.group 0 [] errorLogRe).run s0 init accept = some caps) :
    ∃ pre ds msg post whole,
      s0 = pre ++ (' ' :: '*' :: ds ++ ' ' :: (msg ++ (clientMark ++ post))) ∧
      (ds ≠ [] ∧ ∀ z ∈ ds, z.isDigit = true) ∧ '\n' ∉ msg ∧
      (∃ x y, post = x ++ (serverMark ++ y)) ∧
      caps = (init.set 1 msg).set 0 whole ∧
      ∀ g1 x1 y1, '\n' ∉ g1 → '\n' ∉ x1 →
        msg ++ (clientMark ++ post) = g1 ++ (clientMark ++ (x1 ++ (serverMark ++ y1))) →
        g1.length ≤ msg.length := by
  rw [Regex.run, errorLogRe_eq] at hrun
  simp only [Regex.seq] at hrun
  obtain ⟨_, r1, c1, hs1, h1, hq1⟩ := run_cat_sound _ _ _ _ _ _ hrun
  obtain ⟨rfl, hc1⟩ := (M_char _ _ _ _ _).1 h1
  subst c1
  obtain ⟨_, r2, c2, hs2, h2, hq2⟩ := run_cat_sound _ _ _ _ _ _ hq1
  obtain ⟨rfl, hc2⟩ := (M_char _ _ _ _ _).1 h2
  subst c2
  obtain ⟨br, r3, c3, hs3, h3, hq3⟩ := run_cat_sound _ _ _ _ _ _ hq2
  obtain ⟨hc3, _, _⟩ := (M_plusAny _ _ _ _).1 h3
  subst c3
  obtain ⟨_, r4, c4, hs4, h4, hq4⟩ := run_cat_sound _ _ _ _ _ _ hq3
  obtain ⟨rfl, hc4⟩ := (M_char _ _ _ _ _).1 h4
  subst c4
  obtain ⟨_, r5, c5, hs5, h5, hq5⟩ := run_cat_sound _ _ _ _ _ _ hq4
  obtain ⟨rfl, hc5⟩ := (M_char _ _ _ _ _).1 h5
  subst c5
  obtain ⟨mid, r6, c6, hs6, h6, hq6⟩ := run_cat_sound _ _ _ _ _ _ hq5
  obtain ⟨hc6, _⟩ := (M_starAny _ _ _ _).1 h6
  subst c6
  obtain ⟨_, r7, c7, hs7, h7, hq7⟩ := run_cat_sound _ _ _ _ _ _ hq6
  obtain ⟨rfl, hc7⟩ := (M_char _ _ _ _ _).1 h7
  subst c7
  obtain ⟨_, r8, c8, hs8, h8, hq8⟩ := run_cat_sound _ _ _ _ _ _ hq7
  obtain ⟨rfl, hc8⟩ := (M_char _ _ _ _ _).1 h8
  subst c8
  obtain ⟨ds, r9, c9, hs9, h9, hq9⟩ := run_cat_sound _ _ _ _ _ _ hq8
  obtain ⟨hc9, hds⟩ := (M_plusDigit _ _ _ _).1 h9
  subst c9
  obtain ⟨_, r10, c10, hs10, h10, hq10⟩ := run_cat_sound _ _ _ _ _ _ hq9
  obtain ⟨rfl, hc10⟩ := (M_char _ _ _ _ _).1 h10
  subst c10
  rw [run_groupStarAny_cat] at hq10
  obtain ⟨msg, rest, hs11, hmsg, hk, hmax⟩ := starAny_greedy _ _ _ _ _ hq10 (le_refl _)
  have htake : List.take (r10.length - rest.length) r10 = msg := by
    rw [hs11]
    simp
  rw [htake] at hk
  obtain ⟨wt, restT, ct, hs12, hT, hacc⟩ := Regex.run_sound errorTail _ _ _ _ hk
  obtain ⟨x, y, rfl, _, _, hct⟩ := (errorTail_matches_iff _ _ _ _).1 hT
  subst ct
  simp only [accept, Option.some.injEq] at hacc
  refine ⟨' ' :: '[' :: br ++ ']' :: ' ' :: mid, ds, msg,
    x ++ (serverMark ++ (y ++ restT)), _, ?_, hds, hmsg, ⟨x, y ++ restT, rfl⟩, hacc.symm, ?_⟩
  · rw [hs1, hs2, hs3, hs4, hs5, hs6, hs7, hs8, hs9, hs10, hs11, hs12]
    simp [List.append_assoc]
  · intro g1 x1 y1 hg1 hx1 heq
    by_contra hlt
    have hr10 : r10 = g1 ++ (clientMark ++ (x1 ++ (serverMark ++ y1))) := by
      rw [hs11, hs12, ← heq]
      simp [List.append_assoc]
    have hnone := hmax g1 (clientMark ++ (x1 ++ (serverMark ++ y1))) hr10 hg1 (by omega)
    have hM : errorTail.Matches (clientMark ++ (x1 ++ (serverMark ++ []))) y1 init init :=
      (errorTail_matches_iff _ _ _ _).2 ⟨x1, [], rfl, hx1, by simp, rfl⟩
    have hsome := Regex.run_complete errorTail _ _ _ _
      (fun s1 c1 => accept s1 (List.set c1 0 (List.take (s0.length - s1.length) s0)))
      hM (fun _ => rfl)
      (List.set init 1
        (List.take (r10.length - (clientMark ++ (x1 ++ (serverMark ++ y1))).length) r10))
    simp only [List.append_nil, List.append_assoc] at hsome
    rw [hnone] at hsome
    exact absurd hsome (by decide)

theorem error_find (line : List Char) (h : FindStringSubmatch errorLogRe line ≠ []) :
    ∃ pre ds msg post whole,
      line = pre ++ (' ' :: '*' :: ds ++ ' ' :: (msg ++ (clientMark ++ post))) ∧
      (ds ≠ [] ∧ ∀ z ∈ ds, z.isDigit = true) ∧ '\n' ∉ msg ∧
      (∃ x y, post = x ++ (serverMark ++ y)) ∧
      FindStringSubmatch errorLogRe line = [whole, msg] ∧
      ∀ g1 x1 y1, '\n' ∉ g1 → '\n' ∉ x1 →
        msg ++ (clientMark ++ post) = g1 ++ (clientMark ++ (x1 ++ (serverMark ++ y1))) →
        g1.length ≤ msg.length := by
  unfold FindStringSubmatch at h ⊢
  cases hs : searchFrom errorLogRe (List.replicate (NumSubexp errorLogRe + 1) []) line with
  | none => rw [hs] at h; exact absurd rfl h
  | some caps =>
    obtain ⟨pre0, s0, hline, hrun⟩ := searchFrom_some_run _ _ _ _ hs
    obtain ⟨pre, ds, msg, post, whole, hs0, hds, hmsg, hpost, hcaps, hmax⟩ :=
      error_run s0 _ caps hrun
    refine ⟨pre0 ++ pre, ds, msg, post, whole, ?_, hds, hmsg, hpost, ?_, hmax⟩
    · rw [hline, hs0, List.append_assoc]
    · rw [hcaps, NumSubexp_errorLogRe]
      rfl
/-! ## Concrete lines -/

theorem scenarioA_match : FindStringSubmatch accessLogRe scenarioA =
    [scenarioA, "2023-01-02T03:04:05Z".toList, "alice".toList, "200".toList, "GET".toList,
      "/x".toList, "1.1".toList, "10.0.0.1".toList, "Mozilla/5.0".toList] := by
  decide!

theorem scenarioA_event (msg : List Char) :
    populate rawLib { logline.zero rawLib with Message := msg } scenarioA = some
      { Time := "2023-01-02T03:04:05Z".toList, HTTPXUsername := "alice".toList,
        Status := 200, Method := "GET".toList, URL := "/x".toList,
        HTTPVersion := "1.1".toList, UpstreamAddr := "10.0.0.1".toList,
        UserAgent := some "Mozilla/5.0".toList, Message := msg } := by
  rw [populate_match rawLib _ scenarioA _ _ _ _ _ _ _ _ _ scenarioA_match]
  have h : (Atoi "200".toList).1 = 200 := by decide!
  rw [h]
  rfl

theorem scenarioA_event_zero :
    populate rawLib (logline.zero rawLib) scenarioA = some
      { Time := "2023-01-02T03:04:05Z".toList, HTTPXUsername := "alice".toList,
        Status := 200, Method := "GET".toList, URL := "/x".toList,
        HTTPVersion := "1.1".toList, UpstreamAddr := "10.0.0.1".toList,
        UserAgent := some "Mozilla/5.0".toList, Message := [] } :=
  scenarioA_event []

theorem scenarioA_plain : Contains scenarioA errorMarker = false := by decide!

theorem scenarioB_marker : Contains scenarioB errorMarker = true := by decide!

theorem scenarioB_match : FindStringSubmatch errorLogRe scenarioB =
    [" [error] 7#7: *42 connect() failed, client: 1.2.3.4, server: _".toList,
      "connect() failed".toList] := by
  decide!

theorem scenarioC_nomatch : FindStringSubmatch accessLogRe scenarioC = [] := by decide!

theorem empty_nomatch : FindStringSubmatch accessLogRe [] = [] := by decide!

/-! ## The claims about the loop -/

/-- C2. A line the access pattern does not match still gives exactly one event, with
Status 0, the zero time, no user agent and every string field of the access line
empty, and the loop goes on with the next read: both when the line is read at the
start of an iteration and when it is read after an error line (whose message the
event then carries). -/
theorem nonmatching_line_degrades {T U : Type} (lib : Lib T U) (x : List Char)
    (rest : List ReadResult) (h : FindStringSubmatch accessLogRe x = []) :
    (Contains x errorMarker = false →
      mainLoop lib (.line x :: rest) =
        { events := logline.zero lib :: (mainLoop lib rest).events,
          outcome := (mainLoop lib rest).outcome }) ∧
    (∀ e : ReadResult, Contains e.text errorMarker = true →
      mainLoop lib (e :: .line x :: rest) =
        { events := { logline.zero lib with Message := errorMessage e.text } ::
            (mainLoop lib rest).events,
          outcome := (mainLoop lib rest).outcome }) ∧
    (logline.zero lib).Status = 0 ∧ (logline.zero lib).Time = lib.zeroTime ∧
    (logline.zero lib).UserAgent = none ∧ (logline.zero lib).HTTPXUsername = [] ∧
    (logline.zero lib).Method = [] ∧ (logline.zero lib).URL = [] ∧
    (logline.zero lib).HTTPVersion = [] ∧ (logline.zero lib).UpstreamAddr = [] := by
  refine ⟨?_, ?_, rfl, rfl, rfl, rfl, rfl, rfl, rfl, rfl⟩
  · intro hx
    rw [mainLoop_plain lib (.line x) rest hx]
    show Trace.emit (populate lib (logline.zero lib) x) _ = _
    rw [populate_nomatch lib _ x h]
    rfl
  · intro e he
    rw [mainLoop_paired lib e (.line x) rest he]
    show Trace.emit (populate lib _ x) _ = _
    rw [populate_nomatch lib _ x h]
    rfl

/-- Scenario C: the line `garbage not a log line` is not matched, and the theorem
applies to it, followed here by the access line of Scenario A. -/
theorem nonmatching_line_degrades_witness :
    FindStringSubmatch accessLogRe scenarioC = [] ∧
    ((Contains scenarioC errorMarker = false →
      mainLoop rawLib (.line scenarioC :: [.line scenarioA]) =
        { events := logline.zero rawLib :: (mainLoop rawLib [.line scenarioA]).events,
          outcome := (mainLoop rawLib [.line scenarioA]).outcome }) ∧
    (∀ e : ReadResult, Contains e.text errorMarker = true →
      mainLoop rawLib (e :: .line scenarioC :: [.line scenarioA]) =
        { events := { logline.zero rawLib with Message := errorMessage e.text } ::
            (mainLoop rawLib [.line scenarioA]).events,
          outcome := (mainLoop rawLib [.line scenarioA]).outcome }) ∧
    (logline.zero rawLib).Status = 0 ∧ (logline.zero rawLib).Time = rawLib.zeroTime ∧
    (logline.zero rawLib).UserAgent = none ∧ (logline.zero rawLib).HTTPXUsername = [] ∧
    (logline.zero rawLib).Method = [] ∧ (logline.zero rawLib).URL = [] ∧
    (logline.zero rawLib).HTTPVersion = [] ∧ (logline.zero rawLib).UpstreamAddr = []) :=
  ⟨scenarioC_nomatch,
    nonmatching_line_degrades rawLib scenarioC [.line scenarioA] scenarioC_nomatch⟩

/-- C3. An error line `e` read at the start of an iteration and the line `x` after it
give exactly one event: its Message is the Message capture of the error pattern on
`e` (empty when the pattern does not match), and every access field is the one
obtained by matching `x` alone. -/
theorem error_access_pairing {T U : Type} (lib : Lib T U) (e x : List Char)
    (rest : List ReadResult) (h : Contains e errorMarker = true) :
    ∃ ax ev, populate lib (logline.zero lib) x = some ax ∧
      mainLoop lib (.line e :: .line x :: rest) =
        { events := ev :: (mainLoop lib rest).events,
          outcome := (mainLoop lib rest).outcome } ∧
      ev.Message = (FindStringSubmatch errorLogRe e).getD 1 [] ∧
      ev.Time = ax.Time ∧ ev.HTTPXUsername = ax.HTTPXUsername ∧ ev.Status = ax.Status ∧
      ev.Method = ax.Method ∧ ev.URL = ax.URL ∧ ev.HTTPVersion = ax.HTTPVersion ∧
      ev.UpstreamAddr = ax.UpstreamAddr ∧ ev.UserAgent = ax.UserAgent := by
  obtain ⟨ax, h1, h2⟩ := mainLoop_paired_event lib (.line e) (.line x) rest h
  exact ⟨ax, { ax with Message := errorMessage e }, h1, h2, errorMessage_eq e,
    rfl, rfl, rfl, rfl, rfl, rfl, rfl, rfl⟩

/-- Scenario B: the error line with body `*42 connect() failed, client: 1.2.3.4,
server: _` followed by the access line of Scenario A; the message capture is
`connect() failed` and the access line alone gives the fields of Scenario A. -/
theorem error_access_pairing_witness :
    Contains scenarioB errorMarker = true ∧
    (FindStringSubmatch errorLogRe scenarioB).getD 1 [] = "connect() failed".toList ∧
    populate rawLib (logline.zero rawLib) scenarioA = some
      { Time := "2023-01-02T03:04:05Z".toList, HTTPXUsername := "alice".toList,
        Status := 200, Method := "GET".toList, URL := "/x".toList,
        HTTPVersion := "1.1".toList, UpstreamAddr := "10.0.0.1".toList,
        UserAgent := some "Mozilla/5.0".toList, Message := [] } ∧
    ∃ ax ev, populate rawLib (logline.zero rawLib) scenarioA = some ax ∧
      mainLoop rawLib (.line scenarioB :: .line scenarioA :: []) =
        { events := ev :: (mainLoop rawLib []).events,
          outcome := (mainLoop rawLib []).outcome } ∧
      ev.Message = (FindStringSubmatch errorLogRe scenarioB).getD 1 [] ∧
      ev.Time = ax.Time ∧ ev.HTTPXUsername = ax.HTTPXUsername ∧ ev.Status = ax.Status ∧
      ev.Method = ax.Method ∧ ev.URL = ax.URL ∧ ev.HTTPVersion = ax.HTTPVersion ∧
      ev.UpstreamAddr = ax.UpstreamAddr ∧ ev.UserAgent = ax.UserAgent :=
  ⟨scenarioB_marker, by rw [scenarioB_match]; rfl, scenarioA_event_zero,
    error_access_pairing rawLib scenarioB scenarioA [] scenarioB_marker⟩

/-- C4. When the last line of a finite stream contains the error marker and is read
at the start of an iteration, no event is emitted for it: the run is the run of the
stream without that line, and the loop halts. -/
theorem orphaned_error_annotation {T U : Type} (lib : Lib T U) (pre : List ReadResult)
    (e : List Char) (h1 : wholeIterations pre = true)
    (h2 : Contains e errorMarker = true) :
    mainLoop lib (pre ++ [.line e]) = mainLoop lib pre ∧
    (mainLoop lib (pre ++ [.line e])).outcome = .halted :=
  ⟨mainLoop_append_orphan lib (.line e) h2 pre.length pre (le_refl _) h1,
    mainLoop_halted lib _ _ (le_refl _)⟩

/-- The stream made of the access line of Scenario A and then the error line of
Scenario B: the error line is dropped. -/
theorem orphaned_error_annotation_witness :
    wholeIterations [.line scenarioA] = true ∧ Contains scenarioB errorMarker = true ∧
    (mainLoop rawLib ([.line scenarioA] ++ [.line scenarioB]) =
        mainLoop rawLib [.line scenarioA] ∧
      (mainLoop rawLib ([.line scenarioA] ++ [.line scenarioB])).outcome = .halted) :=
  ⟨by decide!, scenarioB_marker,
    orphaned_error_annotation rawLib [.line scenarioA] scenarioB (by decide!)
      scenarioB_marker⟩

/-- C5. The compiled access pattern is the stated text; none of the six placeholder
tokens remains in it; it parses; the request placeholder alone compiles to the three
groups Method, URL and HTTPVersion; and the eight group names of the pattern are the
stated ones, all distinct. -/
theorem pattern_compiler_output :
    accessLogRegex =
      "\\[(?P<Time>.*)\\] (?P<HTTPXUsername>.*) (?P<Status>\\d+) \"(?P<Method>.*) (?P<URL>.*) HTTP/(?P<HTTPVersion>\\d.\\d)\" (?P<UpstreamAddr>.*) \"(?P<UserAgent>.*)\"$".toList ∧
    (∀ tok ∈ placeholders, Contains accessLogRegex tok = false) ∧
    (MustCompile accessLogRegex).isSome = true ∧
    (MustCompile (Replace varToRegexReplacer "$request".toList)).map SubexpNames =
      some [[], "Method".toList, "URL".toList, "HTTPVersion".toList] ∧
    SubexpNames accessLogRe =
      [[], "Time".toList, "HTTPXUsername".toList, "Status".toList, "Method".toList,
        "URL".toList, "HTTPVersion".toList, "UpstreamAddr".toList, "UserAgent".toList] ∧
    (SubexpNames accessLogRe).Nodup := by
  refine ⟨by decide!, by decide!, by decide!, by decide!, by decide!, by decide!⟩

/-- C8. The event of an iteration that starts with the read `r` is the same whatever
whole iterations came before it, and its Message is non-empty only if `r` contains
the error marker and the error pattern matches it: with the marker but no match, and
without the marker, the Message is empty. -/
theorem no_message_carry_over {T U : Type} (lib : Lib T U) (pre : List ReadResult)
    (r : ReadResult) (rest : List ReadResult) (h : wholeIterations pre = true) :
    (mainLoop lib (pre ++ r :: rest)).events =
      (mainLoop lib pre).events ++ (mainLoop lib (r :: rest)).events ∧
    ∀ ev, (mainLoop lib (r :: rest)).events.head? = some ev →
      (ev.Message ≠ [] →
        Contains r.text errorMarker = true ∧ FindStringSubmatch errorLogRe r.text ≠ []) ∧
      (Contains r.text errorMarker = true → FindStringSubmatch errorLogRe r.text = [] →
        ev.Message = []) ∧
      (Contains r.text errorMarker = false → ev.Message = []) := by
  refine ⟨mainLoop_append_events lib (r :: rest) pre.length pre (le_refl _) h, ?_⟩
  intro ev hev
  have hnomatch : FindStringSubmatch errorLogRe r.text = [] → errorMessage r.text = [] := by
    intro h0
    simp [errorMessage, h0]
  by_cases hm : Contains r.text errorMarker = true
  · cases rest with
    | nil =>
      rw [mainLoop_orphan lib r hm] at hev
      simp at hev
    | cons r2 rest2 =>
      obtain ⟨ax, _, heq⟩ := mainLoop_paired_event lib r r2 rest2 hm
      rw [heq] at hev
      simp only [List.head?_cons, Option.some.injEq] at hev
      subst hev
      refine ⟨fun hne => ⟨hm, fun h0 => hne (hnomatch h0)⟩, fun _ h0 => hnomatch h0, ?_⟩
      intro hf
      rw [hm] at hf
      exact absurd hf (by decide)
  · simp only [Bool.not_eq_true] at hm
    obtain ⟨ax, _, hmsg, heq⟩ := mainLoop_plain_event lib r rest hm
    rw [heq] at hev
    simp only [List.head?_cons, Option.some.injEq] at hev
    subst hev
    exact ⟨fun hne => absurd hmsg hne, fun _ _ => hmsg, fun _ => hmsg⟩

/-- After the pair of Scenario B, whose event carries a message, an iteration that
starts with the access line of Scenario A. -/
theorem no_message_carry_over_witness :
    wholeIterations [.line scenarioB, .line scenarioA] = true ∧
    ((mainLoop rawLib ([.line scenarioB, .line scenarioA] ++ .line scenarioA :: [])).events =
      (mainLoop rawLib [.line scenarioB, .line scenarioA]).events ++
        (mainLoop rawLib (.line scenarioA :: [])).events ∧
    ∀ ev, (mainLoop rawLib (.line scenarioA :: [])).events.head? = some ev →
      (ev.Message ≠ [] →
        Contains (ReadResult.line scenarioA).text errorMarker = true ∧
          FindStringSubmatch errorLogRe (ReadResult.line scenarioA).text ≠ []) ∧
      (Contains (ReadResult.line scenarioA).text errorMarker = true →
        FindStringSubmatch errorLogRe (ReadResult.line scenarioA).text = [] →
        ev.Message = []) ∧
      (Contains (ReadResult.line scenarioA).text errorMarker = false → ev.Message = [])) :=
  ⟨by decide!,
    no_message_carry_over rawLib [.line scenarioB, .line scenarioA] (.line scenarioA) []
      (by decide!)⟩

/-- C9. For every input line the loop over the group names completes without a
panic: the match slice is empty or has one entry per name, so every read `match[i]`
that passes the guard is in range, and every name that reaches the default branch
is a string field of `logline`. The loop as a whole therefore never panics. -/
theorem field_population_never_aborts {T U : Type} (lib : Lib T U) (l : logline T U)
    (inputStr : List Char) (reads : List ReadResult) :
    (populate lib l inputStr).isSome = true ∧
    ((FindStringSubmatch accessLogRe inputStr).length = 0 ∨
      (FindStringSubmatch accessLogRe inputStr).length = (SubexpNames accessLogRe).length) ∧
    (∀ i, 0 < i ∧ i ≤ (FindStringSubmatch accessLogRe inputStr).length →
      i < (SubexpNames accessLogRe).length →
      ((FindStringSubmatch accessLogRe inputStr).get? i).isSome = true) ∧
    (∀ i name, 0 < i → (SubexpNames accessLogRe).get? i = some name →
      name ≠ "Status".toList → name ≠ "Time".toList → name ≠ "UserAgent".toList →
      ∀ (l1 : logline T U) (v : List Char), (l1.SetString name v).isSome = true) ∧
    (mainLoop lib reads).outcome = .halted := by
  have hlen : (FindStringSubmatch accessLogRe inputStr).length = 0 ∨
      (FindStringSubmatch accessLogRe inputStr).length = (SubexpNames accessLogRe).length := by
    rcases FindStringSubmatch_length accessLogRe inputStr with h | h
    · left; rw [h]; rfl
    · right; rw [h, NumSubexp_accessLogRe, SubexpNames_accessLogRe]; rfl
  refine ⟨populate_isSome lib l inputStr, hlen, ?_, ?_, mainLoop_halted lib _ _ (le_refl _)⟩
  · intro i hi hlt
    rcases hlen with h0 | h9
    · omega
    · rw [← h9] at hlt
      rw [List.get?_eq_get hlt]
      rfl
  · intro i name hi hname h1 h2 h3 l1 v
    rw [SubexpNames_accessLogRe] at hname
    match i, hi, hname with
    | 1, _, hname => simp at hname; exact absurd hname.symm h2
    | 2, _, hname => simp at hname; subst hname; rfl
    | 3, _, hname => simp at hname; exact absurd hname.symm h1
    | 4, _, hname => simp at hname; subst hname; rfl
    | 5, _, hname => simp at hname; subst hname; rfl
    | 6, _, hname => simp at hname; subst hname; rfl
    | 7, _, hname => simp at hname; subst hname; rfl
    | 8, _, hname => simp at hname; exact absurd hname.symm h3
    | n + 9, _, hname => simp at hname

/-- A read that fails with an error other than `io.EOF`, followed by the access line
of Scenario A: the loop does not end at the failed read, it emits the default event
for it and then the event of the next line. -/
theorem read_failure_counterexample :
    mainLoop rawLib [.readErr, .line scenarioA] =
      { events := [ logline.zero rawLib,
          { Time := "2023-01-02T03:04:05Z".toList, HTTPXUsername := "alice".toList,
            Status := 200, Method := "GET".toList, URL := "/x".toList,
            HTTPVersion := "1.1".toList, UpstreamAddr := "10.0.0.1".toList,
            UserAgent := some "Mozilla/5.0".toList, Message := [] } ],
        outcome := .halted } ∧
    mainLoop rawLib [.readErr, .line scenarioA] ≠ mainLoop rawLib [] := by
  have h : mainLoop rawLib [.readErr, .line scenarioA] =
      { events := [ logline.zero rawLib,
          { Time := "2023-01-02T03:04:05Z".toList, HTTPXUsername := "alice".toList,
            Status := 200, Method := "GET".toList, URL := "/x".toList,
            HTTPVersion := "1.1".toList, UpstreamAddr := "10.0.0.1".toList,
            UserAgent := some "Mozilla/5.0".toList, Message := [] } ],
        outcome := .halted } := by
    rw [mainLoop_plain rawLib .readErr _ (by decide!),
      mainLoop_plain rawLib (.line scenarioA) _ scenarioA_plain]
    show Trace.emit (populate rawLib _ []) (Trace.emit (populate rawLib _ scenarioA) _) = _
    rw [populate_nomatch rawLib _ [] empty_nomatch, scenarioA_event_zero]
    rfl
  refine ⟨h, ?_⟩
  rw [h]
  intro hne
  have := congrArg (fun t => t.events.length) hne
  simp [mainLoop] at this

/-- C10 as amended. A read that fails with an error other than `io.EOF` does not end
the loop: at the start of an iteration it is handled as an empty line, the default
event is emitted and the loop reads on; after an error line the event carries that
line's message and default access fields. Only the end of the stream (`io.EOF`)
ends the loop. -/
theorem read_failure_continues {T U : Type} (lib : Lib T U) (rest : List ReadResult) :
    mainLoop lib (.readErr :: rest) =
      { events := logline.zero lib :: (mainLoop lib rest).events,
        outcome := (mainLoop lib rest).outcome } ∧
    (∀ e : List Char, Contains e errorMarker = true →
      mainLoop lib (.line e :: .readErr :: rest) =
        { events := { logline.zero lib with Message := errorMessage e } ::
            (mainLoop lib rest).events,
          outcome := (mainLoop lib rest).outcome }) ∧
    mainLoop lib [] = { events := [], outcome := .halted } := by
  refine ⟨?_, ?_, rfl⟩
  · rw [mainLoop_plain lib .readErr rest (by decide!)]
    show Trace.emit (populate lib _ []) _ = _
    rw [populate_nomatch lib _ [] empty_nomatch]
    rfl
  · intro e he
    rw [mainLoop_paired lib (.line e) .readErr rest he]
    show Trace.emit (populate lib _ []) _ = _
    rw [populate_nomatch lib _ [] empty_nomatch]
    rfl
/-! ## What a match of the access pattern looks like -/

theorem access_find (x : List Char) (h : FindStringSubmatch accessLogRe x ≠ []) :
    ∃ pre T U S M R d1 y d2 A G,
      x = pre ++ accessLine T U S M R [d1, y, d2] A G ∧
      '\n' ∉ T ∧ '\n' ∉ U ∧ (S ≠ [] ∧ ∀ z ∈ S, z.isDigit = true) ∧ '\n' ∉ M ∧ '\n' ∉ R ∧
      (d1.isDigit = true ∧ y ≠ '\n' ∧ d2.isDigit = true) ∧ '\n' ∉ A ∧ '\n' ∉ G ∧
      FindStringSubmatch accessLogRe x =
        [accessLine T U S M R [d1, y, d2] A G, T, U, S, M, R, [d1, y, d2], A, G] := by
  unfold FindStringSubmatch at h ⊢
  cases hs : searchFrom accessLogRe (List.replicate (NumSubexp accessLogRe + 1) []) x with
  | none => rw [hs] at h; exact absurd rfl h
  | some c =>
    obtain ⟨pre, w, rest, hx, hM⟩ := searchFrom_some _ _ _ _ hs
    obtain ⟨T, U, S, M, R, d1, y, d2, A, G, rfl, rfl, hT, hU, hS, hM, hR, hV, hA, hG, hc⟩ :=
      (access_matches_iff _ _ _ _).1 hM
    refine ⟨pre, T, U, S, M, R, d1, y, d2, A, G, by simpa using hx, hT, hU, hS, hM, hR, hV,
      hA, hG, ?_⟩
    rw [hc, NumSubexp_accessLogRe]
    rfl

/-- C7 as amended. For every line the access pattern matches, the captured status
text is a non-empty run of digits; `Atoi` fails on it exactly when the number it
denotes does not fit `int`; the Status of the event is that number when it fits and
the largest `int`, 2^63 - 1, when it does not. -/
theorem status_coercion {T U : Type} (lib : Lib T U) (l0 : logline T U) (x : List Char)
    (h : FindStringSubmatch accessLogRe x ≠ []) :
    ∃ S l, (FindStringSubmatch accessLogRe x).get? 3 = some S ∧
      S ≠ [] ∧ (∀ z ∈ S, z.isDigit = true) ∧
      ((Atoi S).2 = none ↔ decimalValue S < 2 ^ 63) ∧
      populate lib l0 x = some l ∧
      l.Status = if decimalValue S < 2 ^ 63 then (decimalValue S : Int) else 2 ^ 63 - 1 := by
  obtain ⟨pre, T1, U1, S, M, R, d1, y, d2, A, G, _, _, _, hS, _, _, _, _, _, hfind⟩ :=
    access_find x h
  have hatoi := Atoi_digits S hS.1 hS.2
  refine ⟨S, _, by rw [hfind]; rfl, hS.1, hS.2, ?_,
    populate_match lib l0 x _ _ _ _ _ _ _ _ _ hfind, ?_⟩
  · rw [hatoi]
    by_cases hv : decimalValue S < 2 ^ 63
    · rw [if_pos hv]
      exact ⟨fun _ => hv, fun _ => rfl⟩
    · rw [if_neg hv]
      exact ⟨fun h0 => absurd h0 (by decide), fun h0 => absurd h0 hv⟩
  · show (Atoi S).1 = _
    rw [hatoi]
    by_cases hv : decimalValue S < 2 ^ 63
    · rw [if_pos hv, if_pos hv]
    · rw [if_neg hv, if_neg hv]

theorem scenarioD_match : FindStringSubmatch accessLogRe scenarioD =
    [scenarioD, "2023-01-02T03:04:05Z".toList, "alice".toList, "999".toList, "GET".toList,
      "/x".toList, "1.1".toList, "10.0.0.1".toList, "Mozilla/5.0".toList] := by
  decide!

theorem bigStatusLine_match : FindStringSubmatch accessLogRe bigStatusLine =
    [bigStatusLine, "2023-01-02T03:04:05Z".toList, "alice".toList,
      "9223372036854775808".toList, "GET".toList,
      "/x".toList, "1.1".toList, "10.0.0.1".toList, "Mozilla/5.0".toList] := by
  decide!

/-- Scenario D: the access line with status `999` is matched, its status text parses,
and the event carries Status 999. -/
theorem status_coercion_witness :
    FindStringSubmatch accessLogRe scenarioD ≠ [] ∧
    (populate rawLib (logline.zero rawLib) scenarioD).map (fun l => l.Status) = some 999 ∧
    ∃ S l, (FindStringSubmatch accessLogRe scenarioD).get? 3 = some S ∧
      S ≠ [] ∧ (∀ z ∈ S, z.isDigit = true) ∧
      ((Atoi S).2 = none ↔ decimalValue S < 2 ^ 63) ∧
      populate rawLib (logline.zero rawLib) scenarioD = some l ∧
      l.Status = if decimalValue S < 2 ^ 63 then (decimalValue S : Int) else 2 ^ 63 - 1 :=
  ⟨by rw [scenarioD_match]; exact List.cons_ne_nil _ _,
    by
      rw [populate_match rawLib _ scenarioD _ _ _ _ _ _ _ _ _ scenarioD_match]
      have h : (Atoi "999".toList).1 = 999 := by decide!
      simp only [Option.map_some', h],
    status_coercion rawLib (logline.zero rawLib) scenarioD
      (by rw [scenarioD_match]; exact List.cons_ne_nil _ _)⟩

/-- An access line whose status text is 9223372036854775808: the pattern matches,
`Atoi` fails on the text with a range error, and the Status of the event is
9223372036854775807, not 0. -/
theorem status_fallback_counterexample :
    (FindStringSubmatch accessLogRe bigStatusLine).get? 3 =
      some "9223372036854775808".toList ∧
    (Atoi "9223372036854775808".toList).2 = some .errRange ∧
    (populate rawLib (logline.zero rawLib) bigStatusLine).map (fun l => l.Status) =
      some 9223372036854775807 ∧
    (populate rawLib (logline.zero rawLib) bigStatusLine).map (fun l => l.Status) ≠
      some 0 := by
  have h : (Atoi "9223372036854775808".toList).1 = 9223372036854775807 := by decide!
  have hp : (populate rawLib (logline.zero rawLib) bigStatusLine).map (fun l => l.Status) =
      some 9223372036854775807 := by
    rw [populate_match rawLib _ bigStatusLine _ _ _ _ _ _ _ _ _ bigStatusLine_match]
    simp only [Option.map_some', h]
  refine ⟨by rw [bigStatusLine_match]; rfl, by decide!, hp, ?_⟩
  rw [hp]
  decide
/-! ## The round trip of the access line -/

theorem access_run_isSome (t c s m u a g : List Char) (d1 y d2 : Char) (init : Caps)
    (hline : '\n' ∉ t ∧ '\n' ∉ c ∧ '\n' ∉ m ∧ '\n' ∉ u ∧ '\n' ∉ a ∧ '\n' ∉ g)
    (hstatus : s ≠ [] ∧ ∀ z ∈ s, z.isDigit = true)
    (hversion : d1.isDigit = true ∧ y ≠ '\n' ∧ d2.isDigit = true) :
    ((Regex.group 0 [] accessLogRe).run (accessLine t c s m u [d1, y, d2] a g) init
      accept).isSome = true := by
  have hM : (Regex.group 0 [] accessLogRe).Matches (accessLine t c s m u [d1, y, d2] a g) []
      init _ :=
    (access_matches_iff _ _ _ _).2 ⟨t, c, s, m, u, d1, y, d2, a, g, rfl, rfl, hline.1,
      hline.2.1, hstatus, hline.2.2.1, hline.2.2.2.1, hversion, hline.2.2.2.2.1,
      hline.2.2.2.2.2, rfl⟩
  have := Regex.run_complete _ _ _ _ _ accept hM (fun _ => rfl) init
  simpa using this

theorem access_find_line (t c s m u a g : List Char) (d1 d2 : Char)
    (hquote : '"' ∉ t ∧ '"' ∉ c ∧ '"' ∉ m ∧ '"' ∉ u ∧ '"' ∉ a ∧ '"' ∉ g)
    (hline : '\n' ∉ t ∧ '\n' ∉ c ∧ '\n' ∉ m ∧ '\n' ∉ u ∧ '\n' ∉ a ∧ '\n' ∉ g)
    (hbracket : ']' ∉ t ∧ ']' ∉ c) (hspace : ' ' ∉ m ∧ ' ' ∉ u)
    (hstatus : s ≠ [] ∧ ∀ z ∈ s, z.isDigit = true)
    (hversion : d1.isDigit = true ∧ d2.isDigit = true) :
    FindStringSubmatch accessLogRe (accessLine t c s m u [d1, '.', d2] a g) =
      [accessLine t c s m u [d1, '.', d2] a g, t, c, s, m, u, [d1, '.', d2], a, g] := by
  have hsome := access_run_isSome t c s m u a g d1 '.' d2
    (List.replicate (NumSubexp accessLogRe + 1) []) hline hstatus
    ⟨hversion.1, by decide, hversion.2⟩
  obtain ⟨caps, hrun⟩ := Option.isSome_iff_exists.1 hsome
  have hfind : FindStringSubmatch accessLogRe (accessLine t c s m u [d1, '.', d2] a g) =
      caps := by
    unfold FindStringSubmatch
    rw [searchFrom_head _ _ _ _ hrun]
  obtain ⟨w, rest, hw, hM⟩ := run_accept_matches _ _ _ _ hrun
  obtain ⟨T, U, S, M, R, e1, y, e2, A, G, rfl, rfl, _, _, hS, _, _, hV, _, _, hc⟩ :=
    (access_matches_iff _ _ _ _).1 hM
  rw [List.append_nil] at hw
  have hdq : ('"' : Char).isDigit = false := by decide
  have hds : (' ' : Char).isDigit = false := by decide
  have hqv : '"' ∉ [d1, '.', d2] := by
    intro hm
    simp only [List.mem_cons, List.mem_singleton, List.not_mem_nil, or_false] at hm
    rcases hm with h1 | h1 | h1
    · rw [← h1] at hversion; exact absurd hversion.1 (by decide)
    · exact absurd h1 (by decide)
    · rw [← h1] at hversion; exact absurd hversion.2 (by decide)
  obtain ⟨rfl, rfl, rfl, rfl, rfl, hVv, rfl, rfl⟩ :=
    accessLine_inj t c s m u [d1, '.', d2] a g T U S M R [e1, y, e2] A G
      ⟨hquote.1, hquote.2.1, digits_no_char _ hdq s hstatus.2, hquote.2.2.1,
        hquote.2.2.2.1, hqv, hquote.2.2.2.2.1, hquote.2.2.2.2.2⟩
      hbracket hspace (digits_no_char _ hds s hstatus.2) (digits_no_char _ hds S hS.2) rfl hw
  rw [hfind, hc, hVv, NumSubexp_accessLogRe]
  rfl

/-- C1 as amended. For field values free of double quotes and line feeds, with no
`]` in the timestamp and the user name, no space in the method and the URL, a status
that is a non-empty run of digits denoting a number below 2^63 and a version of the
form digit, dot, digit, matching the line built from them and coercing the captures
gives back exactly these values: Time is what `time.Parse` returns for `t`, Status the
number `s` denotes, the user agent decoder is handed `g`, and the other fields are
the texts themselves. -/
theorem access_round_trip {T0 U0 : Type} (lib : Lib T0 U0) (t c s m u a g : List Char)
    (d1 d2 : Char)
    (hquote : '"' ∉ t ∧ '"' ∉ c ∧ '"' ∉ m ∧ '"' ∉ u ∧ '"' ∉ a ∧ '"' ∉ g)
    (hline : '\n' ∉ t ∧ '\n' ∉ c ∧ '\n' ∉ m ∧ '\n' ∉ u ∧ '\n' ∉ a ∧ '\n' ∉ g)
    (hbracket : ']' ∉ t ∧ ']' ∉ c) (hspace : ' ' ∉ m ∧ ' ' ∉ u)
    (hstatus : s ≠ [] ∧ (∀ z ∈ s, z.isDigit = true) ∧ decimalValue s < 2 ^ 63)
    (hversion : d1.isDigit = true ∧ d2.isDigit = true) :
    FindStringSubmatch accessLogRe (accessLine t c s m u [d1, '.', d2] a g) =
      [accessLine t c s m u [d1, '.', d2] a g, t, c, s, m, u, [d1, '.', d2], a, g] ∧
    populate lib (logline.zero lib) (accessLine t c s m u [d1, '.', d2] a g) = some
      { Time := (lib.timeParse t).getD lib.zeroTime, HTTPXUsername := c,
        Status := (decimalValue s : Int), Method := m, URL := u,
        HTTPVersion := [d1, '.', d2], UpstreamAddr := a,
        UserAgent := some (lib.uaNew g), Message := [] } := by
  have hfind := access_find_line t c s m u a g d1 d2 hquote hline hbracket hspace
    ⟨hstatus.1, hstatus.2.1⟩ hversion
  refine ⟨hfind, ?_⟩
  rw [populate_match lib _ _ _ _ _ _ _ _ _ _ _ hfind, Atoi_digits s hstatus.1 hstatus.2.1,
    if_pos hstatus.2.2]
  rfl

/-- Scenario A: the field values `2023-01-02T03:04:05Z`, `alice`, `200`, `GET`, `/x`,
`1.1`, `10.0.0.1`, `Mozilla/5.0` build the line of the scenario and are recovered
from it. -/
theorem access_round_trip_witness :
    accessLine "2023-01-02T03:04:05Z".toList "alice".toList "200".toList "GET".toList
      "/x".toList ['1', '.', '1'] "10.0.0.1".toList "Mozilla/5.0".toList = scenarioA ∧
    decimalValue "200".toList = 200 ∧
    (FindStringSubmatch accessLogRe (accessLine "2023-01-02T03:04:05Z".toList
        "alice".toList "200".toList "GET".toList "/x".toList ['1', '.', '1']
        "10.0.0.1".toList "Mozilla/5.0".toList) =
      [accessLine "2023-01-02T03:04:05Z".toList "alice".toList "200".toList "GET".toList
          "/x".toList ['1', '.', '1'] "10.0.0.1".toList "Mozilla/5.0".toList,
        "2023-01-02T03:04:05Z".toList, "alice".toList, "200".toList, "GET".toList,
        "/x".toList, ['1', '.', '1'], "10.0.0.1".toList, "Mozilla/5.0".toList] ∧
    populate rawLib (logline.zero rawLib) (accessLine "2023-01-02T03:04:05Z".toList
        "alice".toList "200".toList "GET".toList "/x".toList ['1', '.', '1']
        "10.0.0.1".toList "Mozilla/5.0".toList) = some
      { Time := (rawLib.timeParse "2023-01-02T03:04:05Z".toList).getD rawLib.zeroTime,
        HTTPXUsername := "alice".toList,
        Status := (decimalValue "200".toList : Int), Method := "GET".toList,
        URL := "/x".toList, HTTPVersion := ['1', '.', '1'],
        UpstreamAddr := "10.0.0.1".toList,
        UserAgent := some (rawLib.uaNew "Mozilla/5.0".toList), Message := [] }) :=
  ⟨by decide!, by decide!,
    access_round_trip rawLib "2023-01-02T03:04:05Z".toList "alice".toList "200".toList
      "GET".toList "/x".toList "10.0.0.1".toList "Mozilla/5.0".toList '1' '1'
      (by decide!) (by decide!) (by decide!) (by decide!)
      ⟨by decide!, by decide!, by decide!⟩ (by decide!)⟩

/-- The line built from the URL `/x y`, which contains a space, and otherwise the
values of Scenario A: the parse gives Method `GET /x` and URL `y`, not the chosen
`GET` and `/x y`. -/
theorem access_round_trip_counterexample :
    FindStringSubmatch accessLogRe (accessLine "2023-01-02T03:04:05Z".toList
        "alice".toList "200".toList "GET".toList "/x y".toList ['1', '.', '1']
        "10.0.0.1".toList "Mozilla/5.0".toList) =
      [accessLine "2023-01-02T03:04:05Z".toList "alice".toList "200".toList "GET".toList
          "/x y".toList ['1', '.', '1'] "10.0.0.1".toList "Mozilla/5.0".toList,
        "2023-01-02T03:04:05Z".toList, "alice".toList, "200".toList, "GET /x".toList,
        "y".toList, ['1', '.', '1'], "10.0.0.1".toList, "Mozilla/5.0".toList] ∧
    (populate rawLib (logline.zero rawLib) (accessLine "2023-01-02T03:04:05Z".toList
        "alice".toList "200".toList "GET".toList "/x y".toList ['1', '.', '1']
        "10.0.0.1".toList "Mozilla/5.0".toList)).map (fun l => (l.Method, l.URL)) =
      some ("GET /x".toList, "y".toList) ∧
    (populate rawLib (logline.zero rawLib) (accessLine "2023-01-02T03:04:05Z".toList
        "alice".toList "200".toList "GET".toList "/x y".toList ['1', '.', '1']
        "10.0.0.1".toList "Mozilla/5.0".toList)).map (fun l => (l.Method, l.URL)) ≠
      some ("GET".toList, "/x y".toList) := by
  have hfind : FindStringSubmatch accessLogRe (accessLine "2023-01-02T03:04:05Z".toList
        "alice".toList "200".toList "GET".toList "/x y".toList ['1', '.', '1']
        "10.0.0.1".toList "Mozilla/5.0".toList) =
      [accessLine "2023-01-02T03:04:05Z".toList "alice".toList "200".toList "GET".toList
          "/x y".toList ['1', '.', '1'] "10.0.0.1".toList "Mozilla/5.0".toList,
        "2023-01-02T03:04:05Z".toList, "alice".toList, "200".toList, "GET /x".toList,
        "y".toList, ['1', '.', '1'], "10.0.0.1".toList, "Mozilla/5.0".toList] := by
    decide!
  refine ⟨hfind, ?_, ?_⟩
  · rw [populate_match rawLib _ _ _ _ _ _ _ _ _ _ _ hfind]
    rfl
  · rw [populate_match rawLib _ _ _ _ _ _ _ _ _ _ _ hfind]
    decide
/-- C6 as amended. For every line without a line feed that the error pattern matches,
the Message begins right after a sequence marker ` *<digits> ` and ends immediately
before an occurrence of `, client:` that is followed by `, server:`; and it is the
last such occurrence, not the first: no occurrence of `, client:` with a `, server:`
after it starts later in the line than the end of the Message. -/
theorem error_message_extent (line : List Char) (hline : '\n' ∉ line)
    (hm : FindStringSubmatch errorLogRe line ≠ []) :
    ∃ pre ds post,
      line = pre ++ (' ' :: '*' :: ds ++ ' ' :: (errorMessage line ++ (clientMark ++ post))) ∧
      (ds ≠ [] ∧ ∀ z ∈ ds, z.isDigit = true) ∧
      (∃ x y, post = x ++ (serverMark ++ y)) ∧
      ∀ a x y, line = a ++ (clientMark ++ (x ++ (serverMark ++ y))) →
        a.length ≤ (pre ++ (' ' :: '*' :: ds ++ ' ' :: errorMessage line)).length := by
  obtain ⟨pre, ds, msg, post, whole, hl, hds, _, hpost, hfind, hmax⟩ := error_find line hm
  have hmsg : errorMessage line = msg := by
    unfold errorMessage
    rw [hfind]
    rfl
  rw [hmsg]
  refine ⟨pre, ds, post, hl, hds, hpost, ?_⟩
  intro a x y ha
  have hsplit : (pre ++ (' ' :: '*' :: ds ++ [' '])) ++ (msg ++ (clientMark ++ post)) =
      a ++ (clientMark ++ (x ++ (serverMark ++ y))) := by
    rw [← ha, hl]
    simp [List.append_assoc]
  have hlen : (pre ++ (' ' :: '*' :: ds ++ ' ' :: msg)).length =
      (pre ++ (' ' :: '*' :: ds ++ [' '])).length + msg.length := by
    simp
    omega
  rw [hlen]
  rcases List.append_eq_append_iff.1 hsplit with ⟨a1, ha1, hrest⟩ | ⟨c1, hc1, _⟩
  · have hmem : ∀ z ∈ a1, z ∈ line := by
      intro z hz
      rw [ha, ha1]
      simp [hz]
    have hx : ∀ z ∈ x, z ∈ line := by
      intro z hz
      rw [ha]
      simp [hz]
    have := hmax a1 x y (fun h0 => hline (hmem _ h0)) (fun h0 => hline (hx _ h0)) hrest
    rw [ha1, List.length_append]
    omega
  · rw [hc1, List.length_append]
    omega

/-- The error line of Scenario B: it has no line feed and the error pattern matches
it. -/
theorem error_message_extent_witness :
    '\n' ∉ scenarioB ∧ FindStringSubmatch errorLogRe scenarioB ≠ [] ∧
    errorMessage scenarioB = "connect() failed".toList ∧
    ∃ pre ds post,
      scenarioB =
        pre ++ (' ' :: '*' :: ds ++ ' ' :: (errorMessage scenarioB ++ (clientMark ++ post))) ∧
      (ds ≠ [] ∧ ∀ z ∈ ds, z.isDigit = true) ∧
      (∃ x y, post = x ++ (serverMark ++ y)) ∧
      ∀ a x y, scenarioB = a ++ (clientMark ++ (x ++ (serverMark ++ y))) →
        a.length ≤ (pre ++ (' ' :: '*' :: ds ++ ' ' :: errorMessage scenarioB)).length :=
  ⟨by decide!, by rw [scenarioB_match]; exact List.cons_ne_nil _ _,
    by unfold errorMessage; rw [scenarioB_match]; rfl,
    error_message_extent scenarioB (by decide!)
      (by rw [scenarioB_match]; exact List.cons_ne_nil _ _)⟩

/-- An error line in which `, client:` occurs twice: the first occurrence comes right
after `*1 a`, yet the Message is `a, client: b`, which runs up to the second
occurrence. -/
theorem error_message_extent_counterexample :
    Contains twoClients errorMarker = true ∧
    twoClients = "2023/01/02 03:04:05 [error] 7#7: *1 ".toList ++ ("a".toList ++
      (clientMark ++ " b, client: c, server: d".toList)) ∧
    Contains "2023/01/02 03:04:05 [error] 7#7: *1 a, client".toList clientMark = false ∧
    FindStringSubmatch errorLogRe twoClients =
      [" [error] 7#7: *1 a, client: b, client: c, server: d".toList,
        "a, client: b".toList] ∧
    errorMessage twoClients = "a, client: b".toList ∧
    errorMessage twoClients ≠ "a".toList := by
  have hfind : FindStringSubmatch errorLogRe twoClients =
      [" [error] 7#7: *1 a, client: b, client: c, server: d".toList,
        "a, client: b".toList] := by
    decide!
  have hmsg : errorMessage twoClients = "a, client: b".toList := by
    unfold errorMessage
    rw [hfind]
    rfl
  refine ⟨by decide!, by decide!, by decide!, hfind, hmsg, ?_⟩
  rw [hmsg]
  decide

end NginxLogViewer
